import Mathlib

/-! Axsensor payload decoder

A shallow embedding of `internal/pkg/application/decoder/axsensor/decoders.axsensor.go`
(`Decoder`, `decode`, `convertToLwm2mObjects`, `roundFloat`) together with the
properties of the decoder that the specification states.

Conventions of the embedding

* A byte is a natural number below 256; a Go byte slice is a `ByteSlice`, which
  keeps the `len(b)` visible bytes and the bytes of the backing array between
  `len(b)` and `cap(b)` apart, because an index expression `b[i]` is checked
  against the length while a slice expression `b[i:j]` is checked against the
  capacity.
* A `float64` is the rational number it denotes.  Every arithmetic operation on
  `float64` is the exact operation followed by `f64Round`, the IEEE 754 binary64
  rounding (to nearest, ties to even).  No value of this program comes near the
  overflow threshold `2^1024`, so infinities and NaN are not represented.
* A run of Go code either returns, or stops with a run-time fault (`Run.fault`).
  `Run.exhausted` is the answer of the loop model when its iteration budget is
  used up; the theorems show results of the form `Run.ret`.
-/

namespace Axsensor

/-! ## binary64 arithmetic -/

/-- Auxiliary recursion for `natLog2`; the first argument bounds the number of halvings. -/
def log2Aux : Nat → Nat → Nat
  | 0, _ => 0
  | fuel + 1, n => if n < 2 then 0 else log2Aux fuel (n / 2) + 1

/-- Position of the highest set bit of `n` (0 for `n = 0`). -/
def natLog2 (n : Nat) : Nat := log2Aux n n

/-- Binary exponent of a non-zero rational: the `e` with `2^e ≤ |q| < 2^(e+1)`. -/
def ilog2 (q : ℚ) : Int :=
  let e0 : Int := (natLog2 q.num.natAbs : Int) - (natLog2 q.den : Int)
  if (2 : ℚ) ^ e0 ≤ |q| then e0 else e0 - 1

/-- Nearest integer, ties to the even neighbour. -/
def roundHalfEven (x : ℚ) : Int :=
  let f := ⌊x⌋
  let r := x - f
  if r < 1 / 2 then f
  else if 1 / 2 < r then f + 1
  else if f % 2 = 0 then f else f + 1

/-- Spacing of the binary64 numbers around `q`: `2^(e-52)` with `e` the binary
exponent of `q`, not below the exponent `-1022` of the subnormal range. -/
def f64Ulp (q : ℚ) : ℚ := (2 : ℚ) ^ (max (ilog2 q) (-1022) - 52)

/-- IEEE 754 binary64 rounding of a real result (round to nearest, ties to even),
for results below the overflow threshold. -/
def f64Round (q : ℚ) : ℚ :=
  if q = 0 then 0 else (roundHalfEven (q / f64Ulp q) : ℚ) * f64Ulp q

/-- Go `a + b` on `float64`. -/
def f64Add (a b : ℚ) : ℚ := f64Round (a + b)

/-- Go `a * b` on `float64`. -/
def f64Mul (a b : ℚ) : ℚ := f64Round (a * b)

/-- Go `a / b` on `float64` (every divisor in this program is a non-zero constant). -/
def f64Div (a b : ℚ) : ℚ := f64Round (a / b)

/-- Go conversion `float64(n)` of an integer value. -/
def float64OfInt (n : Int) : ℚ := f64Round (n : ℚ)

/-- Go conversion `int64(f)` / `int(f)` of a `float64`: the fraction is discarded
(truncation toward zero); the values converted here are far inside the `int64` range. -/
def intOfFloat64 (f : ℚ) : Int := if 0 ≤ f then ⌊f⌋ else -⌊-f⌋

/-- Go `math.Round`: nearest integer, halfway cases away from zero; the result is exact. -/
def mathRound (x : ℚ) : ℚ := if 0 ≤ x then (⌊x + 1 / 2⌋ : ℚ) else -(⌊-x + 1 / 2⌋ : ℚ)

/-- Go `math.Pow(10, float64(precision))`, which is the exact power for the one
precision (5) the decoder uses. -/
def mathPow10 (precision : Nat) : ℚ := f64Round ((10 : ℚ) ^ precision)

/-- Source `roundFloat`: `ratio := math.Pow(10, precision); math.Round(val*ratio) / ratio`. -/
def roundFloat (val : ℚ) (precision : Nat) : ℚ :=
  let ratio := mathPow10 precision
  f64Div (mathRound (f64Mul val ratio)) ratio

/-- Rounding to five decimal places in exact arithmetic (halfway cases away from
zero), the reading of `rounded to 5 decimal places` in the specification. -/
def specRound5 (x : ℚ) : ℚ := mathRound (x * 10 ^ 5) / 10 ^ 5

/-! ## Machine integers -/

/-- Reinterpretation `int16(u)` of an unsigned 16-bit value. -/
def int16 (u : Nat) : Int :=
  if u % 65536 < 32768 then (u % 65536 : Nat) else ((u % 65536 : Nat) : Int) - 65536

/-- Wrap-around of an `int16` arithmetic result. -/
def wrapInt16 (x : Int) : Int := (x + 32768) % 65536 - 32768

/-! ## Runs, byte slices -/

/-- Outcome of running a piece of Go code. -/
inductive Run (α : Type) where
  | ret (a : α)
  | fault (msg : String)
  | exhausted
  deriving DecidableEq, Repr

/-- Sequencing of runs: a fault or an exhausted budget ends the run. -/
def Run.bind {α β : Type} (r : Run α) (f : α → Run β) : Run β :=
  match r with
  | .ret a => f a
  | .fault m => .fault m
  | .exhausted => .exhausted

instance : Monad Run where
  pure := Run.ret
  bind := Run.bind

/-- A Go `[]byte`: the visible bytes and the rest of the backing array up to the capacity. -/
structure ByteSlice where
  data : List Nat
  spare : List Nat
  deriving DecidableEq, Repr

/-- Go `len(b)`. -/
def ByteSlice.len (b : ByteSlice) : Nat := b.data.length

/-- Go `cap(b)`. -/
def ByteSlice.cap (b : ByteSlice) : Nat := b.data.length + b.spare.length

/-- Go index expression `b[i]`: a run-time fault unless `i < len(b)`. -/
def ByteSlice.index (b : ByteSlice) (i : Nat) : Run Nat :=
  match b.data[i]? with
  | some x => .ret x
  | none => .fault "index out of range"

/-- Go slice expression `b[lo:hi]`: a run-time fault unless `lo ≤ hi ≤ cap(b)`;
the result has the `hi - lo` bytes of the backing array from `lo` on. -/
def ByteSlice.slice (b : ByteSlice) (lo hi : Nat) : Run (List Nat) :=
  if lo ≤ hi ∧ hi ≤ b.cap then .ret (((b.data ++ b.spare).drop lo).take (hi - lo))
  else .fault "slice bounds out of range"

/-- Go `binary.LittleEndian.Uint16`: `uint16(b[0]) | uint16(b[1])<<8`, a fault on
fewer than two bytes. -/
def Uint16 (s : List Nat) : Run Nat :=
  match s with
  | b0 :: b1 :: _ => .ret ((b0 + b1 * 256) % 65536)
  | _ => .fault "index out of range"

/-! ## The decoder -/

/-- Source `AxsensorPayload`; a nil pointer is `none`. -/
structure AxsensorPayload where
  FillingPercentage : Option ℚ
  FillingLevel : Option Int
  Pressure : Option ℚ
  Temperature : Option ℚ
  RelativeHumidity : Option ℚ
  Vbat : Option ℚ
  deriving DecidableEq, Repr

/-- The zero value `AxsensorPayload{}`. -/
def AxsensorPayload.empty : AxsensorPayload :=
  { FillingPercentage := none, FillingLevel := none, Pressure := none,
    Temperature := none, RelativeHumidity := none, Vbat := none }

/-- The millimetre height of `case 0x80`: `1400.0 - byteValue/10.0` is evaluated
in `int16` (both constants take the type of `byteValue`), so the quotient is the
integer quotient, truncated toward zero. -/
def levelOf (byteValue : Int) : Int :=
  wrapInt16 (1400 - wrapInt16 (Int.tdiv byteValue 10))

/-- First `switch` of the loop body of `decode`: the interpretation of the tag
`tag = b[idx]`, writing into the record `p`. -/
def interpretTag (b : ByteSlice) (idx tag : Nat) (p : AxsensorPayload) : Run AxsensorPayload :=
  if tag = 0x80 then do
    let s ← b.slice (idx + 1) (idx + 3)
    let u ← Uint16 s
    let byteValue := int16 u
    let level := float64OfInt (levelOf byteValue)
    let perc := f64Div (f64Mul level 100) 1400
    let levelPercentage := roundFloat perc 5
    let levelCM := intOfFloat64 (f64Div (f64Add level 5) 10)
    pure { p with FillingPercentage := some levelPercentage, FillingLevel := some levelCM }
  else if tag = 0xA1 then do
    let x1 ← b.index (idx + 1)
    let x2 ← b.index (idx + 2)
    let pressure := f64Mul (f64Add (float64OfInt x1) (f64Mul (float64OfInt x2) 256)) 100
    pure { p with Pressure := some pressure }
  else if tag = 0xA2 then do
    let s ← b.slice (idx + 1) (idx + 3)
    let temperature ← Uint16 s
    let temperatureLevel := f64Div (float64OfInt temperature) 10
    pure { p with Temperature := some temperatureLevel }
  else if tag = 0xA3 then do
    let x1 ← b.index (idx + 1)
    let x2 ← b.index (idx + 2)
    let humidity := f64Mul (f64Div (f64Add (float64OfInt x1) (f64Mul (float64OfInt x2) 256)) 1024) 100
    pure { p with RelativeHumidity := some humidity }
  else if tag = 0xA4 then do
    let s ← b.slice (idx + 1) (idx + 3)
    let vbat ← Uint16 s
    let batteryLevel := float64OfInt vbat
    pure { p with Vbat := some batteryLevel }
  else pure p

/-- Second `switch` of the loop body of `decode`: the cursor advance for the tag. -/
def advance (tag : Nat) : Nat :=
  if tag < 0x40 then 1
  else if tag < 0x80 then 2
  else if tag < 0xC0 then 3
  else 5

/-- The loop `for idx < blen { ... }` of `decode`, with an iteration budget. -/
def decodeLoop : Nat → ByteSlice → Nat → Nat → AxsensorPayload → Run AxsensorPayload
  | fuel, b, blen, idx, p =>
    if idx < blen then
      match fuel with
      | 0 => .exhausted
      | fuel + 1 => do
        let tag ← b.index idx
        let p' ← interpretTag b idx tag p
        decodeLoop fuel b blen (idx + advance tag) p'
    else .ret p

/-- The effect of the first `switch` on the record when the two bytes `x1`, `x2`
that follow the tag are readable. -/
def applyTag (tag x1 x2 : Nat) (p : AxsensorPayload) : AxsensorPayload :=
  if tag = 0x80 then
    let level := float64OfInt (levelOf (int16 ((x1 + x2 * 256) % 65536)))
    { p with
      FillingPercentage := some (roundFloat (f64Div (f64Mul level 100) 1400) 5)
      FillingLevel := some (intOfFloat64 (f64Div (f64Add level 5) 10)) }
  else if tag = 0xA1 then
    { p with
      Pressure := some (f64Mul (f64Add (float64OfInt x1) (f64Mul (float64OfInt x2) 256)) 100) }
  else if tag = 0xA2 then
    { p with Temperature := some (f64Div (float64OfInt ((x1 + x2 * 256) % 65536 : Nat)) 10) }
  else if tag = 0xA3 then
    { p with
      RelativeHumidity := some (f64Mul
        (f64Div (f64Add (float64OfInt x1) (f64Mul (float64OfInt x2) 256)) 1024) 100) }
  else if tag = 0xA4 then
    { p with Vbat := some (float64OfInt ((x1 + x2 * 256) % 65536 : Nat)) }
  else p

/-- The scan of `decode` as a function of the visible bytes alone, for buffers on
which every read is inside the buffer: tag at the cursor, effect of the tag,
advance of the cursor, until the cursor reaches `blen`. -/
def scanLoop : Nat → List Nat → Nat → Nat → AxsensorPayload → AxsensorPayload
  | 0, _, _, _, p => p
  | fuel + 1, data, blen, idx, p =>
    if idx < blen then
      scanLoop fuel data blen (idx + advance (data[idx]?.getD 0))
        (applyTag (data[idx]?.getD 0) (data[idx + 1]?.getD 0) (data[idx + 2]?.getD 0) p)
    else p

/-- Source `decode`.  The result pairs the record with the Go `error` (`none` is
`nil`).  Every iteration moves the cursor forward, so `blen` iterations are a
sufficient budget. -/
def decode (b : ByteSlice) : Run (AxsensorPayload × Option String) :=
  let slen := b.len
  let blen := slen / 2
  do
    let p ← decodeLoop blen b blen 0 AxsensorPayload.empty
    pure (p, none)

/-- A point in time (`time.Time`), which the decoder only passes on. -/
abbrev Time := Int

/-- Modelled from the spec: the package `lwm2m` (the object types and their
constructors `NewFillingLevel`, `NewPressure`, `NewHumidity`, `NewTemperature`,
`NewDevice`) is not among the sources.  An object is one of the five canonical
variants, carrying the device identifier, the timestamp and the value handed to
its constructor; `FillingLevel` and `Device` also carry the optional integer
field that the mapper assigns after construction. -/
inductive Lwm2mObject where
  | FillingLevel (deviceID : String) (fillingPercentage : ℚ) (ts : Time)
      (ActualFillingLevel : Option Int)
  | Pressure (deviceID : String) (pressure : ℚ) (ts : Time)
  | Humidity (deviceID : String) (relativeHumidity : ℚ) (ts : Time)
  | Temperature (deviceID : String) (temperature : ℚ) (ts : Time)
  | Device (deviceID : String) (ts : Time) (PowerSourceVoltage : Option Int)
  deriving DecidableEq, Repr

/-- The variant of a canonical object. -/
inductive Kind where
  | FillingLevel
  | Pressure
  | Humidity
  | Temperature
  | Device
  deriving DecidableEq, Repr

/-- The variant of an object. -/
def Lwm2mObject.kind : Lwm2mObject → Kind
  | .FillingLevel .. => .FillingLevel
  | .Pressure .. => .Pressure
  | .Humidity .. => .Humidity
  | .Temperature .. => .Temperature
  | .Device .. => .Device

/-- Source `convertToLwm2mObjects`: five guarded appends to an initially empty list. -/
def convertToLwm2mObjects (deviceID : String) (p : AxsensorPayload) (ts : Time) :
    List Lwm2mObject :=
  let objects : List Lwm2mObject := []
  let objects :=
    match p.FillingPercentage with
    | some v => objects ++ [Lwm2mObject.FillingLevel deviceID v ts p.FillingLevel]
    | none => objects
  let objects :=
    match p.Pressure with
    | some v => objects ++ [Lwm2mObject.Pressure deviceID v ts]
    | none => objects
  let objects :=
    match p.RelativeHumidity with
    | some v => objects ++ [Lwm2mObject.Humidity deviceID v ts]
    | none => objects
  let objects :=
    match p.Temperature with
    | some v => objects ++ [Lwm2mObject.Temperature deviceID v ts]
    | none => objects
  let objects :=
    match p.Vbat with
    | some v => objects ++ [Lwm2mObject.Device deviceID ts (some (intOfFloat64 v))]
    | none => objects
  objects

/-- The five variants in the order in which the mapper emits them. -/
def kindOrder : List Kind :=
  [Kind.FillingLevel, Kind.Pressure, Kind.Humidity, Kind.Temperature, Kind.Device]

/-- Presence of the field that gates a variant: the percentage for FillingLevel,
the battery voltage for Device. -/
def AxsensorPayload.present (p : AxsensorPayload) : Kind → Bool
  | .FillingLevel => p.FillingPercentage.isSome
  | .Pressure => p.Pressure.isSome
  | .Humidity => p.RelativeHumidity.isSome
  | .Temperature => p.Temperature.isSome
  | .Device => p.Vbat.isSome

/-- Modelled from the spec: the type `application.SensorEvent` is not among the
sources; these are the three fields `Decoder` reads. -/
structure SensorEvent where
  FPort : Int
  Data : ByteSlice
  Timestamp : Time

/-- Source `Decoder`.  The result pairs the object slice (`none` is the nil
slice) with the Go `error` (`none` is `nil`); the context argument is unused. -/
def Decoder (deviceID : String) (e : SensorEvent) :
    Run (Option (List Lwm2mObject) × Option String) :=
  if e.FPort ≠ 2 then .ret (none, some "invalid fPort")
  else
    match decode e.Data with
    | .ret (p, none) => .ret (some (convertToLwm2mObjects deviceID p e.Timestamp), none)
    | .ret (_, some err) => .ret (none, some err)
    | .fault m => .fault m
    | .exhausted => .exhausted

/-! ## The scan, instrumented -/

/-- The tags of the first `switch` that have a `case`. -/
def recognized (tag : Nat) : Bool :=
  tag = 0x80 || tag = 0xA1 || tag = 0xA2 || tag = 0xA3 || tag = 0xA4

/-- One execution of the loop body of `decode` at cursor `idx` with record `p`:
the new cursor and the new record. -/
def loopBody (b : ByteSlice) (idx : Nat) (p : AxsensorPayload) : Run (Nat × AxsensorPayload) := do
  let tag ← b.index idx
  let p' ← interpretTag b idx tag p
  pure (idx + advance tag, p')

/-- The loop of `decode` as in `decodeLoop`, returning besides the record the
final cursor and the number of iterations that were run. -/
def decodeLoopTraced :
    Nat → ByteSlice → Nat → Nat → AxsensorPayload → Run (Nat × Nat × AxsensorPayload)
  | fuel, b, blen, idx, p =>
    if idx < blen then
      match fuel with
      | 0 => .exhausted
      | fuel + 1 => do
        let s ← loopBody b idx p
        let r ← decodeLoopTraced fuel b blen s.1 s.2
        pure (r.1, r.2.1 + 1, r.2.2)
    else .ret (idx, 0, p)

/-- The cursor positions at which the scan reads a tag, as determined by the
visible bytes: from `idx`, each tag moves the cursor by its length class until
the cursor reaches `blen`. -/
def scanCursors : Nat → List Nat → Nat → Nat → List Nat
  | 0, _, _, _ => []
  | fuel + 1, data, blen, idx =>
    if idx < blen then idx :: scanCursors fuel data blen (idx + advance (data[idx]?.getD 0))
    else []

/-- The bytes that the scan of a buffer visits as tags. -/
def visitedTags (data : List Nat) : List Nat :=
  (scanCursors (data.length / 2) data (data.length / 2) 0).map fun i => data[i]?.getD 0

/-- One past the highest offset that the loop body touches at cursor `idx`: the
tag `b[idx]` alone, or also the two bytes `b[idx+1]`, `b[idx+2]` behind a tag
that has a `case`. -/
def bodyReach (tag idx : Nat) : Nat := if recognized tag then idx + 3 else idx + 1

/-- Whether every index and slice expression of the scan stays below `len(b)`. -/
def scanInBounds (data : List Nat) : Bool :=
  (scanCursors (data.length / 2) data (data.length / 2) 0).all fun i =>
    decide (bodyReach (data[i]?.getD 0) i ≤ data.length)

/-- The record obtained by applying, in the order of the scan, the chunks at the
cursors that the scan of the visible bytes visits. -/
def scannedRecord (data : List Nat) : AxsensorPayload :=
  (scanCursors (data.length / 2) data (data.length / 2) 0).foldl
    (fun p i => applyTag (data[i]?.getD 0) (data[i + 1]?.getD 0) (data[i + 2]?.getD 0) p)
    AxsensorPayload.empty

/-- The invariant of the record: the derived level is present exactly when the
percentage is. -/
def levelInv (p : AxsensorPayload) : Prop :=
  p.FillingLevel.isSome = p.FillingPercentage.isSome


/-! ## Properties of the binary64 model -/

theorem log2Aux_spec (fuel : Nat) : ∀ n : Nat, 0 < n → n ≤ fuel →
    2 ^ log2Aux fuel n ≤ n ∧ n < 2 ^ (log2Aux fuel n + 1) := by
  induction fuel with
  | zero => intro n h0 h1; omega
  | succ fuel ih =>
    intro n h0 h1
    unfold log2Aux
    by_cases h2 : n < 2
    · rw [if_pos h2]
      constructor
      · simpa using h0
      · simpa using h2
    · rw [if_neg h2]
      have h3 := ih (n / 2) (by omega) (by omega)
      rw [pow_succ, pow_succ]
      constructor <;> omega

theorem natLog2_spec (n : Nat) (h : 0 < n) :
    2 ^ natLog2 n ≤ n ∧ n < 2 ^ (natLog2 n + 1) :=
  log2Aux_spec n n h (Nat.le_refl n)

theorem abs_eq_natAbs_div_den (q : ℚ) : |q| = (q.num.natAbs : ℚ) / (q.den : ℚ) := by
  have h1 : (q.num.natAbs : ℚ) = |(q.num : ℚ)| := by
    rw [← Int.cast_abs, Int.abs_eq_natAbs, Int.cast_natCast]
  rw [h1]
  conv_lhs => rw [← Rat.num_div_den q]
  rw [abs_div]
  simp

theorem ilog2_spec (q : ℚ) (hq : q ≠ 0) :
    (2 : ℚ) ^ ilog2 q ≤ |q| ∧ |q| < (2 : ℚ) ^ (ilog2 q + 1) := by
  have hn : 0 < q.num.natAbs := Int.natAbs_pos.mpr (Rat.num_ne_zero.mpr hq)
  have hd : 0 < q.den := q.den_pos
  obtain ⟨hn1, hn2⟩ := natLog2_spec _ hn
  obtain ⟨hd1, hd2⟩ := natLog2_spec _ hd
  have hn1' : (2 : ℚ) ^ (natLog2 q.num.natAbs : ℤ) ≤ (q.num.natAbs : ℚ) := by
    rw [zpow_natCast]; exact_mod_cast hn1
  have hn2' : (q.num.natAbs : ℚ) < (2 : ℚ) ^ ((natLog2 q.num.natAbs : ℤ) + 1) := by
    have : ((natLog2 q.num.natAbs : ℤ) + 1) = ((natLog2 q.num.natAbs + 1 : ℕ) : ℤ) := by simp
    rw [this, zpow_natCast]; exact_mod_cast hn2
  have hd1' : (2 : ℚ) ^ (natLog2 q.den : ℤ) ≤ (q.den : ℚ) := by
    rw [zpow_natCast]; exact_mod_cast hd1
  have hd2' : (q.den : ℚ) < (2 : ℚ) ^ ((natLog2 q.den : ℤ) + 1) := by
    have : ((natLog2 q.den : ℤ) + 1) = ((natLog2 q.den + 1 : ℕ) : ℤ) := by simp
    rw [this, zpow_natCast]; exact_mod_cast hd2
  have hdq : (0 : ℚ) < (q.den : ℚ) := by exact_mod_cast hd
  have habs := abs_eq_natAbs_div_den q
  have two : (2 : ℚ) ≠ 0 := by norm_num
  have hpc : (0 : ℚ) < (2 : ℚ) ^ (natLog2 q.den : ℤ) := zpow_pos (by norm_num) _
  have hpc1 : (0 : ℚ) < (2 : ℚ) ^ ((natLog2 q.den : ℤ) + 1) := zpow_pos (by norm_num) _
  unfold ilog2
  simp only
  split_ifs with h
  · refine ⟨h, ?_⟩
    rw [habs, div_lt_iff₀ hdq]
    calc (q.num.natAbs : ℚ) < (2 : ℚ) ^ ((natLog2 q.num.natAbs : ℤ) + 1) := hn2'
      _ = (2 : ℚ) ^ ((natLog2 q.num.natAbs : ℤ) - (natLog2 q.den : ℤ) + 1)
            * (2 : ℚ) ^ (natLog2 q.den : ℤ) := by
          rw [← zpow_add₀ two]; congr 1; ring
      _ ≤ (2 : ℚ) ^ ((natLog2 q.num.natAbs : ℤ) - (natLog2 q.den : ℤ) + 1) * (q.den : ℚ) := by
          apply mul_le_mul_of_nonneg_left hd1' (le_of_lt (zpow_pos (by norm_num) _))
  · constructor
    · rw [habs, le_div_iff₀ hdq]
      calc (2 : ℚ) ^ ((natLog2 q.num.natAbs : ℤ) - (natLog2 q.den : ℤ) - 1) * (q.den : ℚ)
          ≤ (2 : ℚ) ^ ((natLog2 q.num.natAbs : ℤ) - (natLog2 q.den : ℤ) - 1)
              * (2 : ℚ) ^ ((natLog2 q.den : ℤ) + 1) := by
            apply mul_le_mul_of_nonneg_left (le_of_lt hd2') (le_of_lt (zpow_pos (by norm_num) _))
        _ = (2 : ℚ) ^ (natLog2 q.num.natAbs : ℤ) := by
            rw [← zpow_add₀ two]; congr 1; ring
        _ ≤ (q.num.natAbs : ℚ) := hn1'
    · have : (natLog2 q.num.natAbs : ℤ) - (natLog2 q.den : ℤ) - 1 + 1
          = (natLog2 q.num.natAbs : ℤ) - (natLog2 q.den : ℤ) := by ring
      rw [this]
      exact lt_of_not_le h

theorem roundHalfEven_intCast (n : ℤ) : roundHalfEven (n : ℚ) = n := by
  unfold roundHalfEven
  simp

theorem roundHalfEven_error (x : ℚ) : |(roundHalfEven x : ℚ) - x| ≤ 1 / 2 := by
  have h1 : (⌊x⌋ : ℚ) ≤ x := Int.floor_le x
  have h2 : x < (⌊x⌋ : ℚ) + 1 := Int.lt_floor_add_one x
  unfold roundHalfEven
  simp only
  rw [abs_le]
  split_ifs with ha hb hc
  · constructor <;> linarith
  · push_cast; constructor <;> linarith
  · constructor <;> linarith
  · push_cast; constructor <;> linarith

theorem roundHalfEven_nonneg (x : ℚ) (h : 0 ≤ x) : 0 ≤ roundHalfEven x := by
  have h1 : 0 ≤ ⌊x⌋ := Int.floor_nonneg.mpr h
  unfold roundHalfEven
  simp only
  split_ifs <;> omega

theorem f64Ulp_pos (q : ℚ) : 0 < f64Ulp q := zpow_pos (by norm_num) _

theorem f64Round_nonneg (q : ℚ) (h : 0 ≤ q) : 0 ≤ f64Round q := by
  unfold f64Round
  split_ifs
  · exact le_refl 0
  · apply mul_nonneg _ (le_of_lt (f64Ulp_pos q))
    exact_mod_cast roundHalfEven_nonneg _ (div_nonneg h (le_of_lt (f64Ulp_pos q)))

theorem f64Round_error (q : ℚ) : |f64Round q - q| ≤ f64Ulp q / 2 := by
  have hu := f64Ulp_pos q
  unfold f64Round
  split_ifs with h0
  · subst h0; simp; exact le_of_lt (half_pos hu)
  · have h1 := roundHalfEven_error (q / f64Ulp q)
    have h2 : (roundHalfEven (q / f64Ulp q) : ℚ) * f64Ulp q - q
        = ((roundHalfEven (q / f64Ulp q) : ℚ) - q / f64Ulp q) * f64Ulp q := by
      field_simp
    rw [h2, abs_mul, abs_of_pos hu]
    calc |(roundHalfEven (q / f64Ulp q) : ℚ) - q / f64Ulp q| * f64Ulp q
        ≤ 1 / 2 * f64Ulp q := mul_le_mul_of_nonneg_right h1 (le_of_lt hu)
      _ = f64Ulp q / 2 := by ring

theorem ilog2_lt_of_abs_lt (q : ℚ) (hq : q ≠ 0) (k : ℤ) (h : |q| < (2 : ℚ) ^ k) :
    ilog2 q < k := by
  have h1 := (ilog2_spec q hq).1
  exact (zpow_lt_zpow_iff_right₀ (by norm_num : (1 : ℚ) < 2)).mp (lt_of_le_of_lt h1 h)

theorem le_ilog2_of_le_abs (q : ℚ) (hq : q ≠ 0) (k : ℤ) (h : (2 : ℚ) ^ k ≤ |q|) :
    k ≤ ilog2 q := by
  have h1 := (ilog2_spec q hq).2
  have h2 := (zpow_lt_zpow_iff_right₀ (by norm_num : (1 : ℚ) < 2)).mp (lt_of_le_of_lt h h1)
  omega

/-- A number `m * 2^k` with `|m| < 2^53` and `k ≥ -1074` is a binary64 number:
rounding leaves it unchanged. -/
theorem f64Round_exact (m k : ℤ) (hm : |m| < 2 ^ 53) (hk : -1074 ≤ k) :
    f64Round ((m : ℚ) * (2 : ℚ) ^ k) = (m : ℚ) * (2 : ℚ) ^ k := by
  have two : (2 : ℚ) ≠ 0 := by norm_num
  by_cases h0 : (m : ℚ) * (2 : ℚ) ^ k = 0
  · unfold f64Round; rw [if_pos h0, h0]
  · have hlt : |(m : ℚ) * (2 : ℚ) ^ k| < (2 : ℚ) ^ (53 + k) := by
      rw [abs_mul, abs_of_pos (zpow_pos (by norm_num : (0 : ℚ) < 2) k), zpow_add₀ two]
      apply mul_lt_mul_of_pos_right _ (zpow_pos (by norm_num) k)
      have : ((|m| : ℤ) : ℚ) < ((2 ^ 53 : ℤ) : ℚ) := by exact_mod_cast hm
      rw [Int.cast_abs] at this
      calc |(m : ℚ)| < ((2 ^ 53 : ℤ) : ℚ) := this
        _ = (2 : ℚ) ^ (53 : ℤ) := by norm_num
    have he := ilog2_lt_of_abs_lt _ h0 _ hlt
    have hj : 0 ≤ k - (max (ilog2 ((m : ℚ) * (2 : ℚ) ^ k)) (-1022) - 52) := by
      have := max_le (by omega : ilog2 ((m : ℚ) * (2 : ℚ) ^ k) ≤ k + 52) (by omega : (-1022 : ℤ) ≤ k + 52)
      omega
    obtain ⟨j, hj'⟩ := Int.eq_ofNat_of_zero_le hj
    have hdiv : (m : ℚ) * (2 : ℚ) ^ k / f64Ulp ((m : ℚ) * (2 : ℚ) ^ k) = ((m * 2 ^ j : ℤ) : ℚ) := by
      unfold f64Ulp
      rw [mul_div_assoc, ← zpow_sub₀ two, hj', zpow_natCast]
      push_cast; ring
    unfold f64Round
    rw [if_neg h0, hdiv, roundHalfEven_intCast]
    unfold f64Ulp
    have hk2 : k = (j : ℤ) + (max (ilog2 ((m : ℚ) * (2 : ℚ) ^ k)) (-1022) - 52) := by omega
    conv_rhs => rw [hk2, zpow_add₀ two, zpow_natCast]
    push_cast; ring

theorem f64Round_intCast (n : ℤ) (h : |n| < 2 ^ 53) : f64Round (n : ℚ) = n := by
  have := f64Round_exact n 0 h (by norm_num)
  simpa using this

theorem f64Round_natCast (n : ℕ) (h : n < 2 ^ 53) : f64Round (n : ℚ) = n := by
  have := f64Round_intCast (n : ℤ) (by rw [abs_of_nonneg (by positivity)]; exact_mod_cast h)
  simpa using this

/-- Relative error of binary64 rounding in the normal range: at most `2^-53`. -/
theorem f64Round_rel_error (q : ℚ) (h : (2 : ℚ) ^ (-1022 : ℤ) ≤ |q|) :
    |f64Round q - q| ≤ |q| * (2 : ℚ) ^ (-53 : ℤ) := by
  have two : (2 : ℚ) ≠ 0 := by norm_num
  have hq : q ≠ 0 := by
    intro h0; subst h0
    have : (0 : ℚ) < (2 : ℚ) ^ (-1022 : ℤ) := zpow_pos (by norm_num) _
    simp at h; linarith
  have he := le_ilog2_of_le_abs q hq _ h
  have h1 := f64Round_error q
  have h2 : f64Ulp q / 2 = (2 : ℚ) ^ ilog2 q * (2 : ℚ) ^ (-53 : ℤ) := by
    unfold f64Ulp
    rw [max_eq_left he, ← zpow_add₀ two, div_eq_iff two, ← zpow_add_one₀ two]
    congr 1; ring
  rw [h2] at h1
  exact le_trans h1 (mul_le_mul_of_nonneg_right (ilog2_spec q hq).1 (le_of_lt (zpow_pos (by norm_num) _)))

theorem intOfFloat64_intCast (n : ℤ) : intOfFloat64 (n : ℚ) = n := by
  unfold intOfFloat64
  split_ifs
  · exact Int.floor_intCast n
  · rw [← Int.cast_neg, Int.floor_intCast, neg_neg]

theorem float64OfInt_eq (n : ℤ) (h : |n| < 2 ^ 53) : float64OfInt n = n :=
  f64Round_intCast n h

theorem int16_bounds (u : Nat) : -32768 ≤ int16 u ∧ int16 u ≤ 32767 := by
  unfold int16
  split_ifs <;> omega

theorem tdiv10_eq (x : Int) :
    Int.tdiv x 10 = if 0 ≤ x then x / 10 else -((-x) / 10) := by
  split_ifs with h
  · exact Int.tdiv_eq_ediv h (by norm_num)
  · have h1 : Int.tdiv x 10 = -(Int.tdiv (-x) 10) := by
      rw [Int.neg_tdiv, neg_neg]
    rw [h1, Int.tdiv_eq_ediv (by omega) (by norm_num)]

/-- The `int16` computation of the height never wraps: for every `int16` raw
value the height is `1400 - raw quot 10`, between -1876 and 4676. -/
theorem levelOf_eq (raw : Int) (h1 : -32768 ≤ raw) (h2 : raw ≤ 32767) :
    levelOf raw = 1400 - Int.tdiv raw 10 ∧ -1876 ≤ levelOf raw ∧ levelOf raw ≤ 4676 := by
  unfold levelOf wrapInt16
  rw [tdiv10_eq]
  split_ifs <;> omega

theorem f64Round_div10_trunc (n : Int) (h1 : -10000 ≤ n) (h2 : n ≤ 10000) :
    intOfFloat64 (f64Round ((n : ℚ) / 10)) = Int.tdiv n 10 := by
  have hpow : (2 : ℚ) ^ (-53 : ℤ) = 1 / 9007199254740992 := by norm_num
  have hmin : (2 : ℚ) ^ (-1022 : ℤ) ≤ 1 / 10 := by
    have h3 : (2 : ℚ) ^ (-1022 : ℤ) ≤ (2 : ℚ) ^ (-4 : ℤ) :=
      zpow_le_zpow_right₀ (by norm_num) (by norm_num)
    have h4 : (2 : ℚ) ^ (-4 : ℤ) = 1 / 16 := by norm_num
    rw [h4] at h3
    linarith
  rw [tdiv10_eq]
  by_cases hr : n % 10 = 0
  · -- the quotient is an integer, hence exact
    obtain ⟨k, hk⟩ : ∃ k : Int, n = 10 * k := ⟨n / 10, by omega⟩
    have hq : (n : ℚ) / 10 = (k : ℚ) := by rw [hk]; push_cast; field_simp
    rw [hq, f64Round_intCast k (by rw [abs_lt]; constructor <;> omega), intOfFloat64_intCast]
    split_ifs <;> omega
  · by_cases hn : 0 ≤ n
    · rw [if_pos hn]
      have hk1 : 10 * (n / 10) + 1 ≤ n := by omega
      have hk2 : n ≤ 10 * (n / 10) + 9 := by omega
      have hk1' : (10 : ℚ) * ((n / 10 : ℤ) : ℚ) + 1 ≤ (n : ℚ) := by exact_mod_cast hk1
      have hk2' : (n : ℚ) ≤ (10 : ℚ) * ((n / 10 : ℤ) : ℚ) + 9 := by exact_mod_cast hk2
      have hn' : (1 : ℚ) ≤ (n : ℚ) := by exact_mod_cast (by omega : (1 : ℤ) ≤ n)
      have hn2 : (n : ℚ) ≤ 10000 := by exact_mod_cast h2
      have hqpos : (0 : ℚ) ≤ (n : ℚ) / 10 := by positivity
      have herr := f64Round_rel_error ((n : ℚ) / 10) (by rw [abs_of_nonneg hqpos]; linarith)
      rw [abs_of_nonneg hqpos, hpow, abs_le] at herr
      have hf := f64Round_nonneg _ hqpos
      unfold intOfFloat64
      rw [if_pos hf, Int.floor_eq_iff]
      constructor <;> linarith [herr.1, herr.2]
    · rw [if_neg hn]
      have hk1 : 10 * ((-n) / 10) + 1 ≤ -n := by omega
      have hk2 : -n ≤ 10 * ((-n) / 10) + 9 := by omega
      have hk1' : (10 : ℚ) * (((-n) / 10 : ℤ) : ℚ) + 1 ≤ -(n : ℚ) := by exact_mod_cast hk1
      have hk2' : -(n : ℚ) ≤ (10 : ℚ) * (((-n) / 10 : ℤ) : ℚ) + 9 := by exact_mod_cast hk2
      have hn' : (n : ℚ) ≤ -1 := by exact_mod_cast (by omega : n ≤ (-1 : ℤ))
      have hn2 : (-10000 : ℚ) ≤ (n : ℚ) := by exact_mod_cast h1
      have hqneg : (n : ℚ) / 10 < 0 := by linarith
      have herr := f64Round_rel_error ((n : ℚ) / 10) (by rw [abs_of_neg hqneg]; linarith)
      rw [abs_of_neg hqneg, hpow, abs_le] at herr
      have hf : ¬ (0 ≤ f64Round ((n : ℚ) / 10)) := by
        intro h0; linarith [herr.1, herr.2]
      unfold intOfFloat64
      rw [if_neg hf, neg_inj, Int.floor_eq_iff]
      constructor <;> linarith [herr.1, herr.2]

theorem floor_half_of_sevenths (a : Int) (z : ℚ)
    (h1 : (a : ℚ) / 7 - 1 / 14 < z) (h2 : z < (a : ℚ) / 7 + 1 / 14) :
    ⌊z + 1 / 2⌋ = ⌊(a : ℚ) / 7 + 1 / 2⌋ := by
  have hM1 : 14 * ((2 * a + 7) / 14) + 1 ≤ 2 * a + 7 := by omega
  have hM2 : 2 * a + 7 ≤ 14 * ((2 * a + 7) / 14) + 13 := by omega
  have hM1' : (14 : ℚ) * (((2 * a + 7) / 14 : ℤ) : ℚ) + 1 ≤ 2 * (a : ℚ) + 7 := by
    exact_mod_cast hM1
  have hM2' : 2 * (a : ℚ) + 7 ≤ (14 : ℚ) * (((2 * a + 7) / 14 : ℤ) : ℚ) + 13 := by
    exact_mod_cast hM2
  have e1 : ⌊(a : ℚ) / 7 + 1 / 2⌋ = (2 * a + 7) / 14 := by
    rw [Int.floor_eq_iff]; constructor <;> linarith
  have e2 : ⌊z + 1 / 2⌋ = (2 * a + 7) / 14 := by
    rw [Int.floor_eq_iff]; constructor <;> linarith
  rw [e1, e2]

/-- Rounding to the nearest integer is insensitive to a perturbation below 1/14
of a multiple of 1/7, which is never closer than 1/14 to a halfway point. -/
theorem mathRound_stable (a : Int) (z : ℚ)
    (h1 : (a : ℚ) / 7 - 1 / 14 < z) (h2 : z < (a : ℚ) / 7 + 1 / 14)
    (hs : 0 ≤ z ↔ 0 ≤ a) : mathRound z = mathRound ((a : ℚ) / 7) := by
  unfold mathRound
  by_cases ha : 0 ≤ a
  · have hz : 0 ≤ z := hs.mpr ha
    have hx : (0 : ℚ) ≤ (a : ℚ) / 7 := by
      have : (0 : ℚ) ≤ (a : ℚ) := by exact_mod_cast ha
      positivity
    rw [if_pos hz, if_pos hx, floor_half_of_sevenths a z h1 h2]
  · have hz : ¬ (0 ≤ z) := fun h => ha (hs.mp h)
    have hx : ¬ ((0 : ℚ) ≤ (a : ℚ) / 7) := by
      have : (a : ℚ) < 0 := by exact_mod_cast (not_le.mp ha)
      intro h; linarith
    have e : -((a : ℚ) / 7) = ((-a : ℤ) : ℚ) / 7 := by push_cast; ring
    rw [if_neg hz, if_neg hx, e,
      floor_half_of_sevenths (-a) (-z) (by push_cast; linarith) (by push_cast; linarith)]

theorem mathPow10_five : mathPow10 5 = 100000 := by
  have := f64Round_natCast 100000 (by norm_num)
  unfold mathPow10
  rw [show ((10 : ℚ) ^ 5) = ((100000 : ℕ) : ℚ) by norm_num, this]
  norm_num

/-- The `float64` computation of the percentage returns the binary64 number
nearest to the exact percentage `h*100/1400` rounded to five decimal places. -/
theorem percentage_eq (h : Int) (h1 : -1876 ≤ h) (h2 : h ≤ 4676) :
    roundFloat (f64Div (f64Mul (float64OfInt h) 100) 1400) 5
      = f64Round (specRound5 ((h : ℚ) * 100 / 1400)) := by
  have hpow : (2 : ℚ) ^ (-53 : ℤ) = 1 / 9007199254740992 := by norm_num
  have hmin : (2 : ℚ) ^ (-1022 : ℤ) ≤ 1 / 16 := by
    have h3 : (2 : ℚ) ^ (-1022 : ℤ) ≤ (2 : ℚ) ^ (-4 : ℤ) :=
      zpow_le_zpow_right₀ (by norm_num) (by norm_num)
    have h4 : (2 : ℚ) ^ (-4 : ℤ) = 1 / 16 := by norm_num
    rwa [h4] at h3
  have hconv : float64OfInt h = (h : ℚ) :=
    float64OfInt_eq h (by rw [abs_lt]; constructor <;> omega)
  have hmul : f64Mul (h : ℚ) 100 = (h : ℚ) * 100 := by
    have := f64Round_intCast (h * 100) (by rw [abs_lt]; constructor <;> omega)
    unfold f64Mul
    rw [show (h : ℚ) * 100 = ((h * 100 : ℤ) : ℚ) by push_cast; rfl]
    exact this
  have hX : (h : ℚ) * 100 / 1400 * 10 ^ 5 = ((h * 50000 : ℤ) : ℚ) / 7 := by
    push_cast; ring
  unfold roundFloat specRound5
  simp only
  rw [mathPow10_five, hconv, hmul, hX]
  unfold f64Div
  have h1q : (-1876 : ℚ) ≤ (h : ℚ) := by exact_mod_cast h1
  have h2q : (h : ℚ) ≤ 4676 := by exact_mod_cast h2
  suffices hs : mathRound (f64Mul (f64Round ((h : ℚ) * 100 / 1400)) 100000)
      = mathRound (((h * 50000 : ℤ) : ℚ) / 7) by
    rw [hs]; norm_num
  rcases lt_trichotomy h 0 with hneg | hzero | hpos
  · have hq : (h : ℚ) ≤ -1 := by exact_mod_cast (by omega : h ≤ (-1 : ℤ))
    have hq1 : (h : ℚ) * 100 / 1400 < 0 := by linarith
    have herr1 := f64Round_rel_error ((h : ℚ) * 100 / 1400)
      (by rw [abs_of_neg hq1]; linarith)
    rw [abs_of_neg hq1, hpow, abs_le] at herr1
    have hy : f64Round ((h : ℚ) * 100 / 1400) * 100000 < 0 := by linarith [herr1.2]
    have herr2 := f64Round_rel_error (f64Round ((h : ℚ) * 100 / 1400) * 100000)
      (by rw [abs_of_neg hy]; linarith [herr1.2])
    rw [abs_of_neg hy, hpow, abs_le] at herr2
    unfold f64Mul
    apply mathRound_stable
    · push_cast; linarith [herr1.1, herr1.2, herr2.1, herr2.2]
    · push_cast; linarith [herr1.1, herr1.2, herr2.1, herr2.2]
    · constructor
      · intro hz; exfalso; linarith [herr1.1, herr1.2, herr2.1, herr2.2]
      · intro ha; omega
  · subst hzero
    simp [f64Round, f64Mul]
  · have hq : (1 : ℚ) ≤ (h : ℚ) := by exact_mod_cast (by omega : (1 : ℤ) ≤ h)
    have hq1 : 0 < (h : ℚ) * 100 / 1400 := by linarith
    have herr1 := f64Round_rel_error ((h : ℚ) * 100 / 1400)
      (by rw [abs_of_pos hq1]; linarith)
    rw [abs_of_pos hq1, hpow, abs_le] at herr1
    have hy : 0 < f64Round ((h : ℚ) * 100 / 1400) * 100000 := by linarith [herr1.1]
    have herr2 := f64Round_rel_error (f64Round ((h : ℚ) * 100 / 1400) * 100000)
      (by rw [abs_of_pos hy]; linarith [herr1.1])
    rw [abs_of_pos hy, hpow, abs_le] at herr2
    unfold f64Mul
    apply mathRound_stable
    · push_cast; linarith [herr1.1, herr1.2, herr2.1, herr2.2]
    · push_cast; linarith [herr1.1, herr1.2, herr2.1, herr2.2]
    · constructor
      · intro _; omega
      · intro _; linarith [herr1.1, herr1.2, herr2.1, herr2.2]

/-! ## Properties of the decoder -/

@[simp] theorem Run.ret_bind {α β : Type} (a : α) (f : α → Run β) :
    (Run.ret a >>= f) = f a := rfl

@[simp] theorem Run.fault_bind {α β : Type} (m : String) (f : α → Run β) :
    ((Run.fault m : Run α) >>= f) = Run.fault m := rfl

@[simp] theorem Run.exhausted_bind {α β : Type} (f : α → Run β) :
    ((Run.exhausted : Run α) >>= f) = Run.exhausted := rfl

@[simp] theorem Run.pure_eq {α : Type} (a : α) : (pure a : Run α) = Run.ret a := rfl

/-- A three-byte frame is scanned in one iteration: the tag at offset 0 is
interpreted and the cursor leaves the scanned half. -/
theorem decode_frame3 (t lo hi : Nat) (spare : List Nat) :
    decode ⟨[t, lo, hi], spare⟩
      = (interpretTag ⟨[t, lo, hi], spare⟩ 0 t AxsensorPayload.empty >>= fun p =>
          Run.ret (p, none)) := by
  have hadv : ¬ (advance t < 1) := by unfold advance; split_ifs <;> omega
  simp only [decode, ByteSlice.len, List.length_cons, List.length_nil]
  rw [decodeLoop]
  simp only [show 0 < (0 + 1 + 1 + 1) / 2 by norm_num, if_true, ByteSlice.index,
    List.getElem?_cons_zero, Run.ret_bind]
  cases h : interpretTag ⟨[t, lo, hi], spare⟩ 0 t AxsensorPayload.empty with
  | ret p =>
    simp only [Run.ret_bind]
    rw [decodeLoop]
    have h0 : advance t ≠ 0 := by omega
    simp [h0]
  | fault m => simp
  | exhausted => simp

theorem f64Round_nat_mul_pow (n : ℕ) (k : ℤ) (hn : n < 2 ^ 53) (hk : -1074 ≤ k) :
    f64Round ((n : ℚ) * (2 : ℚ) ^ k) = (n : ℚ) * (2 : ℚ) ^ k := by
  have h := f64Round_exact (n : ℤ) k (by rw [abs_of_nonneg (by positivity)]; exact_mod_cast hn) hk
  simpa using h

/-- The byte pair arithmetic `float64(x1) + float64(x2)*256` is exact. -/
theorem bytePair_exact (x1 x2 : Nat) (h1 : x1 < 256) (h2 : x2 < 256) :
    f64Add (float64OfInt x1) (f64Mul (float64OfInt x2) 256) = ((x1 + x2 * 256 : ℕ) : ℚ) := by
  have e1 : float64OfInt (x1 : ℤ) = (x1 : ℚ) := by
    have := f64Round_natCast x1 (by omega)
    simpa [float64OfInt] using this
  have e2 : float64OfInt (x2 : ℤ) = (x2 : ℚ) := by
    have := f64Round_natCast x2 (by omega)
    simpa [float64OfInt] using this
  have e3 : f64Mul (x2 : ℚ) 256 = ((x2 * 256 : ℕ) : ℚ) := by
    have := f64Round_natCast (x2 * 256) (by omega)
    unfold f64Mul
    rw [← this]; push_cast; rfl
  rw [e1, e2, e3]
  have := f64Round_natCast (x1 + x2 * 256) (by omega)
  unfold f64Add
  rw [← this]; push_cast; rfl

theorem interpretTag_A1 (lo hi : Nat) (spare : List Nat) (p : AxsensorPayload) :
    interpretTag ⟨[0xA1, lo, hi], spare⟩ 0 0xA1 p
      = Run.ret { p with
          Pressure := some (f64Mul (f64Add (float64OfInt lo) (f64Mul (float64OfInt hi) 256)) 100) } := by
  simp [interpretTag, ByteSlice.index]

theorem interpretTag_A3 (lo hi : Nat) (spare : List Nat) (p : AxsensorPayload) :
    interpretTag ⟨[0xA3, lo, hi], spare⟩ 0 0xA3 p
      = Run.ret { p with
          RelativeHumidity := some (f64Mul
            (f64Div (f64Add (float64OfInt lo) (f64Mul (float64OfInt hi) 256)) 1024) 100) } := by
  simp [interpretTag, ByteSlice.index]

theorem interpretTag_A2 (lo hi : Nat) (spare : List Nat) (p : AxsensorPayload) :
    interpretTag ⟨[0xA2, lo, hi], spare⟩ 0 0xA2 p
      = Run.ret { p with
          Temperature := some (f64Div (float64OfInt ((lo + hi * 256) % 65536 : ℕ)) 10) } := by
  simp [interpretTag, ByteSlice.slice, ByteSlice.cap, Uint16]

theorem interpretTag_A4 (lo hi : Nat) (spare : List Nat) (p : AxsensorPayload) :
    interpretTag ⟨[0xA4, lo, hi], spare⟩ 0 0xA4 p
      = Run.ret { p with Vbat := some (float64OfInt ((lo + hi * 256) % 65536 : ℕ)) } := by
  simp [interpretTag, ByteSlice.slice, ByteSlice.cap, Uint16]

theorem interpretTag_80 (lo hi : Nat) (spare : List Nat) (p : AxsensorPayload) :
    interpretTag ⟨[0x80, lo, hi], spare⟩ 0 0x80 p
      = Run.ret { p with
          FillingPercentage := some (roundFloat (f64Div (f64Mul
            (float64OfInt (levelOf (int16 ((lo + hi * 256) % 65536)))) 100) 1400) 5)
          FillingLevel := some (intOfFloat64 (f64Div (f64Add
            (float64OfInt (levelOf (int16 ((lo + hi * 256) % 65536)))) 5) 10)) } := by
  simp [interpretTag, ByteSlice.slice, ByteSlice.cap, Uint16]

theorem index_eq (b : ByteSlice) (i : Nat) (h : i < b.len) :
    b.index i = Run.ret (b.data[i]?.getD 0) := by
  unfold ByteSlice.len at h
  unfold ByteSlice.index
  rw [List.getElem?_eq_getElem h]
  rfl

theorem slice_Uint16_eq (b : ByteSlice) (idx : Nat) (h : idx + 3 ≤ b.len) :
    (b.slice (idx + 1) (idx + 3) >>= Uint16)
      = Run.ret ((b.data[idx + 1]?.getD 0 + b.data[idx + 2]?.getD 0 * 256) % 65536) := by
  unfold ByteSlice.len at h
  unfold ByteSlice.slice ByteSlice.cap
  rw [if_pos ⟨by omega, by omega⟩]
  have hl : (List.take (idx + 3 - (idx + 1)) (List.drop (idx + 1) (b.data ++ b.spare))).length
      = 2 := by
    rw [List.length_take, List.length_drop, List.length_append]
    omega
  obtain ⟨x, y, hxy⟩ := List.length_eq_two.mp hl
  have hx : (List.take (idx + 3 - (idx + 1)) (List.drop (idx + 1) (b.data ++ b.spare)))[0]?
      = b.data[idx + 1]? := by
    rw [List.getElem?_take_of_lt (by omega), List.getElem?_drop,
      List.getElem?_append_left (by omega)]
  have hy : (List.take (idx + 3 - (idx + 1)) (List.drop (idx + 1) (b.data ++ b.spare)))[1]?
      = b.data[idx + 2]? := by
    rw [List.getElem?_take_of_lt (by omega), List.getElem?_drop,
      List.getElem?_append_left (by omega)]
  rw [hxy] at hx hy
  rw [hxy, ← hx, ← hy]
  rfl

/-- When three bytes are available from the cursor on, the interpretation of a
tag reads inside the buffer and returns the record updated by `applyTag`. -/
theorem interpretTag_eq_applyTag (b : ByteSlice) (idx tag : Nat) (p : AxsensorPayload)
    (h : idx + 3 ≤ b.len) :
    interpretTag b idx tag p
      = Run.ret (applyTag tag (b.data[idx + 1]?.getD 0) (b.data[idx + 2]?.getD 0) p) := by
  have hu := slice_Uint16_eq b idx h
  have h1 := index_eq b (idx + 1) (by omega)
  have h2 := index_eq b (idx + 2) (by omega)
  have hu' : ∀ f : Nat → Run AxsensorPayload,
      (b.slice (idx + 1) (idx + 3) >>= fun s => Uint16 s >>= f)
        = f ((b.data[idx + 1]?.getD 0 + b.data[idx + 2]?.getD 0 * 256) % 65536) := by
    intro f
    have : (b.slice (idx + 1) (idx + 3) >>= fun s => Uint16 s >>= f)
        = ((b.slice (idx + 1) (idx + 3) >>= Uint16) >>= f) := by
      cases b.slice (idx + 1) (idx + 3) <;> rfl
    rw [this, hu]; rfl
  unfold interpretTag applyTag
  split_ifs
  · rw [hu']; rfl
  · rw [h1, h2]; rfl
  · rw [hu']; rfl
  · rw [h1, h2]; rfl
  · rw [hu']; rfl
  · rfl

theorem advance_pos (tag : Nat) : 1 ≤ advance tag := by
  unfold advance; split_ifs <;> omega

/-- On a buffer of three or more bytes the scan loop returns what `scanLoop`
computes: every cursor below `len/2` leaves three bytes to read, and the budget
`len/2 - idx` suffices. -/
theorem decodeLoop_eq_scanLoop (b : ByteSlice) (hlen : 3 ≤ b.len) :
    ∀ (fuel idx : Nat) (p : AxsensorPayload), b.len / 2 - idx ≤ fuel →
      decodeLoop fuel b (b.len / 2) idx p
        = Run.ret (scanLoop fuel b.data (b.len / 2) idx p) := by
  intro fuel
  induction fuel with
  | zero =>
    intro idx p hf
    unfold decodeLoop scanLoop
    rw [if_neg (by omega)]
  | succ fuel ih =>
    intro idx p hf
    unfold decodeLoop scanLoop
    by_cases hidx : idx < b.len / 2
    · rw [if_pos hidx, if_pos hidx]
      have hadv := advance_pos (b.data[idx]?.getD 0)
      simp only [index_eq b idx (by omega), Run.ret_bind,
        interpretTag_eq_applyTag b idx _ p (by omega)]
      exact ih _ _ (by omega)
    · rw [if_neg hidx, if_neg hidx]

/-- On every buffer whose length is not 2, `decode` returns the record that the
scan of the first `len/2` bytes computes, together with a nil error. -/
theorem decode_eq_scanLoop (b : ByteSlice) (h : b.len ≠ 2) :
    decode b
      = Run.ret (scanLoop (b.len / 2) b.data (b.len / 2) 0 AxsensorPayload.empty, none) := by
  unfold decode
  by_cases h3 : 3 ≤ b.len
  · simp only [decodeLoop_eq_scanLoop b h3 (b.len / 2) 0 AxsensorPayload.empty (by omega),
      Run.ret_bind, Run.pure_eq]
  · have h0 : b.len / 2 = 0 := by omega
    simp only [h0]
    unfold decodeLoop scanLoop
    simp

theorem scanCursors_lt (data : List Nat) (blen : Nat) :
    ∀ (fuel idx : Nat), ∀ i ∈ scanCursors fuel data blen idx, i < blen := by
  intro fuel
  induction fuel with
  | zero => intro idx i hi; unfold scanCursors at hi; cases hi
  | succ fuel ih =>
    intro idx i hi
    unfold scanCursors at hi
    by_cases hidx : idx < blen
    · rw [if_pos hidx] at hi
      rcases List.mem_cons.mp hi with h | h
      · rw [h]; exact hidx
      · exact ih _ i h
    · rw [if_neg hidx] at hi; cases hi

theorem bodyReach_le (tag idx : Nat) : bodyReach tag idx ≤ idx + 3 := by
  unfold bodyReach; split_ifs <;> omega

/-- On a buffer whose length is not 2 every offset that the scan touches is
below the length. -/
theorem scanInBounds_of_len_ne_two (data : List Nat) (h : data.length ≠ 2) :
    scanInBounds data = true := by
  unfold scanInBounds
  rw [List.all_eq_true]
  intro i hi
  have h1 := scanCursors_lt data _ _ _ i hi
  have h2 := bodyReach_le (data[i]?.getD 0) i
  exact decide_eq_true (by omega)

/-- The scan applies, in order, the chunks at the cursors it visits. -/
theorem scanLoop_eq_foldl (data : List Nat) (blen : Nat) :
    ∀ (fuel idx : Nat) (p : AxsensorPayload),
      scanLoop fuel data blen idx p
        = (scanCursors fuel data blen idx).foldl
            (fun p i => applyTag (data[i]?.getD 0) (data[i + 1]?.getD 0) (data[i + 2]?.getD 0) p)
            p := by
  intro fuel
  induction fuel with
  | zero => intro idx p; rfl
  | succ fuel ih =>
    intro idx p
    unfold scanLoop scanCursors
    by_cases hidx : idx < blen
    · rw [if_pos hidx, if_pos hidx, List.foldl_cons]
      exact ih _ _
    · rw [if_neg hidx, if_neg hidx]
      rfl

/-- Decoding of a frame `80 lo hi`, in terms of the height `levelOf raw` that
the `int16` arithmetic of `case 0x80` yields for `raw = int16(lo + 256*hi)`. -/
theorem decode_frame_80 (lo hi : Nat) (hlo : lo < 256) (hhi : hi < 256) (spare : List Nat) :
    decode ⟨[0x80, lo, hi], spare⟩
      = Run.ret ({ AxsensorPayload.empty with
          FillingPercentage := some (f64Round (specRound5
            ((levelOf (int16 (lo + 256 * hi)) : ℚ) * 100 / 1400)))
          FillingLevel := some (Int.tdiv (levelOf (int16 (lo + 256 * hi)) + 5) 10) }, none) := by
  have hmod : (lo + hi * 256) % 65536 = lo + 256 * hi := by omega
  obtain ⟨hb1, hb2⟩ := int16_bounds (lo + 256 * hi)
  obtain ⟨-, hl1, hl2⟩ := levelOf_eq _ hb1 hb2
  have hconv : float64OfInt (levelOf (int16 (lo + 256 * hi)))
      = ((levelOf (int16 (lo + 256 * hi)) : ℤ) : ℚ) :=
    float64OfInt_eq _ (by rw [abs_lt]; constructor <;> omega)
  have hadd : f64Add ((levelOf (int16 (lo + 256 * hi)) : ℤ) : ℚ) 5
      = ((levelOf (int16 (lo + 256 * hi)) + 5 : ℤ) : ℚ) := by
    have := f64Round_intCast (levelOf (int16 (lo + 256 * hi)) + 5)
      (by rw [abs_lt]; constructor <;> omega)
    unfold f64Add
    rw [← this]; push_cast; rfl
  have hcm : intOfFloat64 (f64Div (f64Add (float64OfInt (levelOf (int16 (lo + 256 * hi)))) 5) 10)
      = Int.tdiv (levelOf (int16 (lo + 256 * hi)) + 5) 10 := by
    rw [hconv, hadd]
    exact f64Round_div10_trunc _ (by omega) (by omega)
  rw [decode_frame3, interpretTag_80, hmod, percentage_eq _ hl1 hl2, hcm]
  rfl

/-! ## The claims -/

/-- C1: whenever the event's FPort is not 2, `Decoder` returns the nil object
slice together with the error `invalid fPort`, whatever the device ID, the
timestamp and the payload; `decode` is not run. -/
theorem Decoder_invalid_port (deviceID : String) (e : SensorEvent) (h : e.FPort ≠ 2) :
    Decoder deviceID e = Run.ret (none, some "invalid fPort") := by
  unfold Decoder
  rw [if_pos h]

/-- Witness for C1: port 5 with the payload `80 00`, on which `decode` itself
stops with a run-time fault. -/
theorem Decoder_invalid_port_witness :
    (5 : Int) ≠ 2 ∧
    decode ⟨[0x80, 0x00], []⟩ = Run.fault "slice bounds out of range" ∧
    Decoder "dev-1" ⟨5, ⟨[0x80, 0x00], []⟩, 1700000000⟩
      = Run.ret (none, some "invalid fPort") :=
  ⟨by decide, by decide!,
    Decoder_invalid_port "dev-1" ⟨5, ⟨[0x80, 0x00], []⟩, 1700000000⟩ (by decide)⟩

/-- C2 (amended): on every buffer whose length is not 2, also one that ends in
the middle of a chunk, `decode` does not fail and does not stop with a fault: it
returns, with a nil error, the record obtained by applying in order the chunks
at the cursors the scan visits; every offset it touches lies below the length,
and the outcome does not depend on what lies behind the buffer. -/
theorem decode_returns_of_len_ne_two (b : ByteSlice) (h : b.len ≠ 2) :
    decode b = Run.ret (scannedRecord b.data, none)
    ∧ scanInBounds b.data = true
    ∧ ∀ spare : List Nat, decode ⟨b.data, spare⟩ = decode b := by
  have hb : ∀ c : ByteSlice, c.len ≠ 2 → decode c = Run.ret (scannedRecord c.data, none) := by
    intro c hc
    rw [decode_eq_scanLoop c hc, scanLoop_eq_foldl]
    rfl
  refine ⟨hb b h, scanInBounds_of_len_ne_two b.data h, ?_⟩
  intro spare
  rw [hb b h, hb ⟨b.data, spare⟩ h]

/-- Witness for C2 (amended): the 4-byte buffer `A2 EB 00 A2` ends in the middle
of its second chunk; `decode` returns the temperature 23.5 of the first chunk
and a nil error. -/
theorem decode_returns_of_len_ne_two_witness :
    (ByteSlice.len ⟨[0xA2, 0xEB, 0x00, 0xA2], []⟩ ≠ 2) ∧
    scannedRecord [0xA2, 0xEB, 0x00, 0xA2]
      = { AxsensorPayload.empty with Temperature := some (47 / 2) } ∧
    decode ⟨[0xA2, 0xEB, 0x00, 0xA2], []⟩
      = Run.ret ({ AxsensorPayload.empty with Temperature := some (47 / 2) }, none) := by
  have hrec : scannedRecord [0xA2, 0xEB, 0x00, 0xA2]
      = { AxsensorPayload.empty with Temperature := some (47 / 2) } := by decide!
  refine ⟨by decide, hrec, ?_⟩
  rw [← hrec]
  exact (decode_returns_of_len_ne_two ⟨[0xA2, 0xEB, 0x00, 0xA2], []⟩ (by decide)).1

/-- C2 (counterexample): in the 3-byte buffer `C0 01 02` the chunk at offset 0
has the class length 5 and overruns the buffer, yet `decode` returns the empty
record and a nil error instead of failing. -/
theorem decode_overrun_no_error :
    advance 0xC0 = 5 ∧ 0 + advance 0xC0 > ByteSlice.len ⟨[0xC0, 0x01, 0x02], []⟩ ∧
    decode ⟨[0xC0, 0x01, 0x02], []⟩ = Run.ret (AxsensorPayload.empty, none) := by
  decide

/-- C3 (divergence): on the frame `80 05 00` (raw = 5) `decode` sets
fillingPercentage to 100 (height 1400, the quotient 5/10 truncated to 0 in
`int16`), whereas the exact quotient gives the height 1399.5 and the percentage
99.96429, whose binary64 value is not 100. -/
theorem decode_percentage_raw5 (spare : List Nat) :
    decode ⟨[0x80, 0x05, 0x00], spare⟩
      = Run.ret ({ AxsensorPayload.empty with
          FillingPercentage := some 100, FillingLevel := some 140 }, none)
    ∧ specRound5 ((1400 - (5 : ℚ) / 10) * 100 / 1400) = 9996429 / 100000
    ∧ f64Round (specRound5 ((1400 - (5 : ℚ) / 10) * 100 / 1400)) ≠ 100 := by
  refine ⟨?_, by decide!, by decide!⟩
  rw [decode_frame_80 0x05 0x00 (by decide) (by decide) spare]
  have e1 : f64Round (specRound5 ((levelOf (int16 (0x05 + 256 * 0x00)) : ℚ) * 100 / 1400))
      = 100 := by decide!
  have e2 : Int.tdiv (levelOf (int16 (0x05 + 256 * 0x00)) + 5) 10 = 140 := by decide!
  rw [e1, e2]

/-- C4: for all bytes `lo`, `hi`, decoding the frame `80 lo hi` sets fillinglevel
to `(height + 5) / 10` truncated toward zero, where `height = 1400 - raw quot 10`
is the millimetre height `decode` computes for `raw = int16(lo + 256*hi)`, while
fillingPercentage is the (binary64 value of the) percentage `height*100/1400`
of the same height rounded to five decimal places. -/
theorem decode_level_frame (lo hi : Nat) (hlo : lo < 256) (hhi : hi < 256) (spare : List Nat) :
    ∃ height : Int,
      height = 1400 - Int.tdiv (int16 (lo + 256 * hi)) 10
      ∧ height = levelOf (int16 (lo + 256 * hi))
      ∧ decode ⟨[0x80, lo, hi], spare⟩
        = Run.ret ({ AxsensorPayload.empty with
            FillingPercentage := some (f64Round (specRound5 ((height : ℚ) * 100 / 1400)))
            FillingLevel := some (Int.tdiv (height + 5) 10) }, none) := by
  obtain ⟨hb1, hb2⟩ := int16_bounds (lo + 256 * hi)
  exact ⟨levelOf (int16 (lo + 256 * hi)), (levelOf_eq _ hb1 hb2).1, rfl,
    decode_frame_80 lo hi hlo hhi spare⟩

/-- Witness for C4: raw = 0 gives the height 1400, fillinglevel 140 (140.5
truncated, not 141) and fillingPercentage 100. -/
theorem decode_level_frame_witness :
    (0x00 < 256 ∧ 0x00 < 256) ∧
    decode ⟨[0x80, 0x00, 0x00], []⟩
      = Run.ret ({ AxsensorPayload.empty with
          FillingPercentage := some 100, FillingLevel := some 140 }, none) := by
  refine ⟨by decide, ?_⟩
  obtain ⟨height, h1, -, h3⟩ := decode_level_frame 0x00 0x00 (by decide) (by decide) []
  have e0 : height = 1400 := by rw [h1]; decide
  subst e0
  rw [h3]
  have e1 : f64Round (specRound5 (((1400 : ℤ) : ℚ) * 100 / 1400)) = 100 := by decide!
  have e2 : Int.tdiv ((1400 : ℤ) + 5) 10 = 140 := by decide
  rw [e1, e2]

/-- C5: for all bytes `lo`, `hi`, `Decoder` on port 2 with the payload `A2 lo hi`
returns exactly one object, a Temperature object with the given device ID and
timestamp, whose value is the `float64` quotient of the unsigned little-endian
raw value `lo + 256*hi` by 10: it is never negative and differs from the exact
quotient by at most the binary64 rounding error (a relative `2^-53`). -/
theorem Decoder_temperature_frame (lo hi : Nat) (hlo : lo < 256) (hhi : hi < 256)
    (deviceID : String) (ts : Time) (spare : List Nat) :
    ∃ v : ℚ,
      Decoder deviceID ⟨2, ⟨[0xA2, lo, hi], spare⟩, ts⟩
        = Run.ret (some [Lwm2mObject.Temperature deviceID v ts], none)
      ∧ v = f64Div ((lo + 256 * hi : ℕ) : ℚ) 10
      ∧ 0 ≤ v
      ∧ |v - ((lo + 256 * hi : ℕ) : ℚ) / 10| ≤ ((lo + 256 * hi : ℕ) : ℚ) / 10 * (2 : ℚ) ^ (-53 : ℤ) := by
  have hmod : (lo + hi * 256) % 65536 = lo + 256 * hi := by omega
  have hconv : float64OfInt ((lo + 256 * hi : ℕ) : ℤ) = ((lo + 256 * hi : ℕ) : ℚ) := by
    have := f64Round_natCast (lo + 256 * hi) (by omega)
    simpa [float64OfInt] using this
  have hq : (0 : ℚ) ≤ ((lo + 256 * hi : ℕ) : ℚ) / 10 := by positivity
  refine ⟨f64Div ((lo + 256 * hi : ℕ) : ℚ) 10, ?_, rfl, f64Round_nonneg _ hq, ?_⟩
  · unfold Decoder
    rw [decode_frame3, interpretTag_A2, hmod, hconv]
    simp [convertToLwm2mObjects, AxsensorPayload.empty]
  · unfold f64Div
    by_cases h0 : lo + 256 * hi = 0
    · rw [h0]; simp [f64Round]
    · have h1 : (1 : ℚ) ≤ ((lo + 256 * hi : ℕ) : ℚ) := by
        exact_mod_cast Nat.one_le_iff_ne_zero.mpr h0
      have h2 : (2 : ℚ) ^ (-1022 : ℤ) ≤ |((lo + 256 * hi : ℕ) : ℚ) / 10| := by
        rw [abs_of_nonneg hq]
        have h3 : (2 : ℚ) ^ (-1022 : ℤ) ≤ (2 : ℚ) ^ (-4 : ℤ) :=
          zpow_le_zpow_right₀ (by norm_num) (by norm_num)
        have h4 : (2 : ℚ) ^ (-4 : ℤ) = 1 / 16 := by norm_num
        rw [h4] at h3
        linarith
      have := f64Round_rel_error _ h2
      rwa [abs_of_nonneg hq] at this

/-- Witness for C5: the payload `A2 EB 00` (raw 235) gives the temperature 23.5. -/
theorem Decoder_temperature_frame_witness :
    (0xEB < 256 ∧ 0 < 256) ∧
    Decoder "dev-1" ⟨2, ⟨[0xA2, 0xEB, 0x00], []⟩, 1700000000⟩
      = Run.ret (some [Lwm2mObject.Temperature "dev-1" (47 / 2) 1700000000], none) := by
  refine ⟨by decide, ?_⟩
  obtain ⟨v, h1, h2, -, -⟩ :=
    Decoder_temperature_frame 0xEB 0x00 (by decide) (by decide) "dev-1" 1700000000 []
  rw [h1, h2]
  have : f64Div ((0xEB + 256 * 0x00 : ℕ) : ℚ) 10 = 47 / 2 := by decide!
  rw [this]

/-- C6: for all bytes `lo`, `hi`, `Decoder` on port 2 with the payload `A4 lo hi`
returns exactly one object, a Device object whose powerSourceVoltage is present
and equals the integer `lo + 256*hi`: the conversions `float64(vbat)` and
`int(*p.Vbat)` lose nothing. -/
theorem Decoder_battery_frame (lo hi : Nat) (hlo : lo < 256) (hhi : hi < 256)
    (deviceID : String) (ts : Time) (spare : List Nat) :
    Decoder deviceID ⟨2, ⟨[0xA4, lo, hi], spare⟩, ts⟩
      = Run.ret (some [Lwm2mObject.Device deviceID ts (some ((lo + 256 * hi : ℕ) : ℤ))], none) := by
  have hmod : (lo + hi * 256) % 65536 = lo + 256 * hi := by omega
  have hconv : float64OfInt ((lo + 256 * hi : ℕ) : ℤ) = (((lo + 256 * hi : ℕ) : ℤ) : ℚ) := by
    have := f64Round_natCast (lo + 256 * hi) (by omega)
    simpa [float64OfInt] using this
  unfold Decoder
  rw [decode_frame3, interpretTag_A4, hmod, hconv]
  simp only [convertToLwm2mObjects, AxsensorPayload.empty, Run.ret_bind, intOfFloat64_intCast]
  simp

/-- Witness for C6: the payload `A4 64 00` gives powerSourceVoltage = 100. -/
theorem Decoder_battery_frame_witness :
    (0x64 < 256 ∧ 0 < 256) ∧
    Decoder "dev-1" ⟨2, ⟨[0xA4, 0x64, 0x00], []⟩, 1700000000⟩
      = Run.ret (some [Lwm2mObject.Device "dev-1" 1700000000 (some 100)], none) :=
  ⟨by decide, Decoder_battery_frame 0x64 0x00 (by decide) (by decide) "dev-1" 1700000000 []⟩

/-- C7: for all bytes `b0`, `b1`, decoding the frame `A1 b0 b1` sets pressure to
exactly `(b0 + b1*256) * 100` pascal, an integer between 0 and 6553500, and
sets no other field. -/
theorem decode_pressure_frame (b0 b1 : Nat) (h0 : b0 < 256) (h1 : b1 < 256)
    (spare : List Nat) :
    decode ⟨[0xA1, b0, b1], spare⟩
      = Run.ret ({ AxsensorPayload.empty with
          Pressure := some (((b0 + b1 * 256) * 100 : ℕ) : ℚ) }, none)
    ∧ (b0 + b1 * 256) * 100 ≤ 6553500 := by
  refine ⟨?_, by omega⟩
  rw [decode_frame3, interpretTag_A1, bytePair_exact b0 b1 h0 h1]
  have h2 : f64Mul ((b0 + b1 * 256 : ℕ) : ℚ) 100 = (((b0 + b1 * 256) * 100 : ℕ) : ℚ) := by
    have := f64Round_natCast ((b0 + b1 * 256) * 100) (by omega)
    unfold f64Mul
    rw [← this]; push_cast; rfl
  rw [h2]
  rfl

/-- Witness for C7: the frame `A1 EB 01` (raw 491) gives 49100 Pa. -/
theorem decode_pressure_frame_witness :
    (0xEB < 256 ∧ 0x01 < 256) ∧
    (decode ⟨[0xA1, 0xEB, 0x01], []⟩
      = Run.ret ({ AxsensorPayload.empty with
          Pressure := some (((0xEB + 0x01 * 256) * 100 : ℕ) : ℚ) }, none)
    ∧ (0xEB + 0x01 * 256) * 100 ≤ 6553500) :=
  ⟨by decide, decode_pressure_frame 0xEB 0x01 (by decide) (by decide) []⟩

/-- C8: for all bytes `b0`, `b1`, decoding the frame `A3 b0 b1` sets relative
humidity to `(b0 + b1*256) / 1024 * 100`, the exact quotient (no rounding, no
truncation, no clamping to 100), and sets no other field. -/
theorem decode_humidity_frame (b0 b1 : Nat) (h0 : b0 < 256) (h1 : b1 < 256)
    (spare : List Nat) :
    decode ⟨[0xA3, b0, b1], spare⟩
      = Run.ret ({ AxsensorPayload.empty with
          RelativeHumidity := some (((b0 + b1 * 256 : ℕ) : ℚ) / 1024 * 100) }, none) := by
  rw [decode_frame3, interpretTag_A3, bytePair_exact b0 b1 h0 h1]
  have e1 : f64Div ((b0 + b1 * 256 : ℕ) : ℚ) 1024 = ((b0 + b1 * 256 : ℕ) : ℚ) / 1024 := by
    have := f64Round_nat_mul_pow (b0 + b1 * 256) (-10) (by omega) (by norm_num)
    have e : ((b0 + b1 * 256 : ℕ) : ℚ) * (2 : ℚ) ^ (-10 : ℤ) = ((b0 + b1 * 256 : ℕ) : ℚ) / 1024 := by
      rw [div_eq_mul_inv]; congr 1; norm_num
    rw [e] at this
    exact this
  have e2 : f64Mul (((b0 + b1 * 256 : ℕ) : ℚ) / 1024) 100
      = ((b0 + b1 * 256 : ℕ) : ℚ) / 1024 * 100 := by
    have := f64Round_nat_mul_pow ((b0 + b1 * 256) * 100) (-10) (by omega) (by norm_num)
    have e : (((b0 + b1 * 256) * 100 : ℕ) : ℚ) * (2 : ℚ) ^ (-10 : ℤ)
        = ((b0 + b1 * 256 : ℕ) : ℚ) / 1024 * 100 := by
      have : (2 : ℚ) ^ (-10 : ℤ) = 1 / 1024 := by norm_num
      rw [this]; push_cast; ring
    rw [e] at this
    exact this
  rw [e1, e2]
  rfl

/-- Witness for C8: the frame `A3 FF FF` (raw 65535) gives 6399.90234375 %RH, above 100. -/
theorem decode_humidity_frame_witness :
    (0xFF < 256 ∧ 0xFF < 256) ∧
    decode ⟨[0xA3, 0xFF, 0xFF], []⟩
      = Run.ret ({ AxsensorPayload.empty with
          RelativeHumidity := some (((0xFF + 0xFF * 256 : ℕ) : ℚ) / 1024 * 100) }, none) :=
  ⟨by decide, decode_humidity_frame 0xFF 0xFF (by decide) (by decide) []⟩

/-- C9: for every record, device ID and timestamp, the kinds of the objects that
`convertToLwm2mObjects` emits are exactly the sub-list of FillingLevel, Pressure,
Humidity, Temperature, Device selected by field presence, in that order; so one
object is emitted per present category, none for an absent one, and at most five. -/
theorem convertToLwm2mObjects_kinds (deviceID : String) (p : AxsensorPayload) (ts : Time) :
    (convertToLwm2mObjects deviceID p ts).map Lwm2mObject.kind = kindOrder.filter p.present
    ∧ (convertToLwm2mObjects deviceID p ts).length = (kindOrder.filter p.present).length
    ∧ (convertToLwm2mObjects deviceID p ts).length = kindOrder.countP p.present
    ∧ (convertToLwm2mObjects deviceID p ts).length ≤ 5 := by
  obtain ⟨fp, fl, pr, te, rh, vb⟩ := p
  cases fp <;> cases pr <;> cases te <;> cases rh <;> cases vb <;>
    simp [convertToLwm2mObjects, kindOrder, AxsensorPayload.present, Lwm2mObject.kind]

/-- C10 (counterexample): on the 9-byte payload `A4 64 00 80 00 00 A2 EB 00` the
scan stops at `9/2 = 4`, before the chunk at offset 6: `Decoder` returns two
objects, FillingLevel and Device, and no Temperature. -/
theorem Decoder_nine_byte_payload :
    Decoder "dev-1" ⟨2, ⟨[0xA4, 0x64, 0x00, 0x80, 0x00, 0x00, 0xA2, 0xEB, 0x00], []⟩, 1700000000⟩
      = Run.ret (some [Lwm2mObject.FillingLevel "dev-1" 100 1700000000 (some 140),
          Lwm2mObject.Device "dev-1" 1700000000 (some 100)], none) := by
  decide!

/-- C10 (amended): a frame that consists of the three chunks `A4 a b`, `80 c d`,
`A2 e f` in any of their six orders, followed by 5 to 9 further bytes (so that
all three chunks start below half of the frame length), makes `Decoder` on port 2
return exactly three objects, in the order FillingLevel, Temperature, Device. -/
theorem Decoder_three_chunks (a b c d e f : Nat) (frame rest spare : List Nat)
    (deviceID : String) (ts : Time)
    (horder : frame ∈
      [[0xA4, a, b, 0x80, c, d, 0xA2, e, f], [0xA4, a, b, 0xA2, e, f, 0x80, c, d],
       [0x80, c, d, 0xA4, a, b, 0xA2, e, f], [0x80, c, d, 0xA2, e, f, 0xA4, a, b],
       [0xA2, e, f, 0xA4, a, b, 0x80, c, d], [0xA2, e, f, 0x80, c, d, 0xA4, a, b]])
    (h5 : 5 ≤ rest.length) (h9 : rest.length ≤ 9) :
    ∃ objs, Decoder deviceID ⟨2, ⟨frame ++ rest, spare⟩, ts⟩ = Run.ret (some objs, none)
      ∧ objs.map Lwm2mObject.kind = [Kind.FillingLevel, Kind.Temperature, Kind.Device] := by
  simp only [List.mem_cons, List.mem_singleton, List.not_mem_nil, or_false] at horder
  have hl : ∀ l : List Nat, l.length = 9 →
      ByteSlice.len ⟨l ++ rest, spare⟩ = 9 + rest.length := by
    intro l h
    simp only [ByteSlice.len, List.length_append, h]
  obtain ⟨n, hn, hn2⟩ : ∃ n, (9 + rest.length) / 2 = n + 7 ∧ ¬ (9 < n + 7) :=
    ⟨(9 + rest.length) / 2 - 7, by omega, by omega⟩
  unfold Decoder
  rcases horder with h | h | h | h | h | h <;> subst h <;>
    rw [decode_eq_scanLoop _ (by rw [hl _ (by rfl)]; omega), hl _ (by rfl), hn] <;>
    simp [scanLoop, applyTag, advance, convertToLwm2mObjects, AxsensorPayload.empty,
      Lwm2mObject.kind, hn2]

/-- Witness for C10 (amended): the nine bytes `A4 64 00 80 00 00 A2 EB 00` followed
by nine zero bytes give FillingLevel, Temperature, Device. -/
theorem Decoder_three_chunks_witness :
    ([0xA4, 0x64, 0x00, 0x80, 0x00, 0x00, 0xA2, 0xEB, 0x00] ∈
      [[0xA4, 0x64, 0x00, 0x80, 0x00, 0x00, 0xA2, 0xEB, 0x00],
       [0xA4, 0x64, 0x00, 0xA2, 0xEB, 0x00, 0x80, 0x00, 0x00],
       [0x80, 0x00, 0x00, 0xA4, 0x64, 0x00, 0xA2, 0xEB, 0x00],
       [0x80, 0x00, 0x00, 0xA2, 0xEB, 0x00, 0xA4, 0x64, 0x00],
       [0xA2, 0xEB, 0x00, 0xA4, 0x64, 0x00, 0x80, 0x00, 0x00],
       [0xA2, 0xEB, 0x00, 0x80, 0x00, 0x00, 0xA4, 0x64, 0x00]]
      ∧ 5 ≤ [0, 0, 0, 0, 0, 0, 0, 0, 0].length ∧ [0, 0, 0, 0, 0, 0, 0, 0, 0].length ≤ 9) ∧
    ∃ objs,
      Decoder "dev-1" ⟨2, ⟨[0xA4, 0x64, 0x00, 0x80, 0x00, 0x00, 0xA2, 0xEB, 0x00]
        ++ [0, 0, 0, 0, 0, 0, 0, 0, 0], []⟩, 1700000000⟩ = Run.ret (some objs, none)
      ∧ objs.map Lwm2mObject.kind = [Kind.FillingLevel, Kind.Temperature, Kind.Device] :=
  ⟨⟨by decide, by decide, by decide⟩,
    Decoder_three_chunks 0x64 0x00 0x00 0x00 0xEB 0x00 _ [0, 0, 0, 0, 0, 0, 0, 0, 0] []
      "dev-1" 1700000000 (by decide) (by decide) (by decide)⟩

/-! ## Properties of the scan loop -/

/-- The loop of `decode` runs its body and continues at the cursor and with the
record that the body returns. -/
theorem decodeLoop_succ (fuel : Nat) (b : ByteSlice) (blen idx : Nat) (p : AxsensorPayload) :
    decodeLoop (fuel + 1) b blen idx p
      = if idx < blen then loopBody b idx p >>= fun s => decodeLoop fuel b blen s.1 s.2
        else Run.ret p := by
  rw [decodeLoop]
  split_ifs with h
  · unfold loopBody
    cases b.index idx with
    | ret tag =>
      simp only [Run.ret_bind]
      cases interpretTag b idx tag p <;> rfl
    | fault m => rfl
    | exhausted => rfl
  · rfl

/-- The loop body in terms of the tag under the cursor. -/
theorem loopBody_eq (b : ByteSlice) (idx t : Nat) (p : AxsensorPayload)
    (ht : b.index idx = Run.ret t) :
    loopBody b idx p = (interpretTag b idx t p >>= fun p' => Run.ret (idx + advance t, p')) := by
  unfold loopBody
  rw [ht]
  rfl

/-- The traced loop is the loop of `decode`: forgetting the final cursor and the
iteration count gives `decodeLoop`. -/
theorem decodeLoop_eq_traced (b : ByteSlice) (blen : Nat) :
    ∀ (fuel idx : Nat) (p : AxsensorPayload),
      decodeLoop fuel b blen idx p
        = (decodeLoopTraced fuel b blen idx p >>= fun r => Run.ret r.2.2) := by
  intro fuel
  induction fuel with
  | zero =>
    intro idx p
    unfold decodeLoop decodeLoopTraced
    split_ifs <;> rfl
  | succ fuel ih =>
    intro idx p
    rw [decodeLoop_succ]
    unfold decodeLoopTraced
    split_ifs with h
    · cases loopBody b idx p with
      | ret s =>
        simp only [Run.ret_bind]
        rw [ih]
        cases decodeLoopTraced fuel b blen s.1 s.2 <;> rfl
      | fault m => rfl
      | exhausted => rfl
    · rfl

theorem advance_le (tag : Nat) : advance tag ≤ 5 := by
  unfold advance; split_ifs <;> omega

theorem advance_table (t : Nat) :
    (t < 0x40 → advance t = 1) ∧ (0x40 ≤ t → t < 0x80 → advance t = 2)
      ∧ (0x80 ≤ t → t < 0xC0 → advance t = 3) ∧ (0xC0 ≤ t → advance t = 5) := by
  unfold advance
  refine ⟨?_, ?_, ?_, ?_⟩ <;> intros <;> split_ifs <;> omega

/-- A tag without a `case` leaves the record as it is and reads nothing. -/
theorem interpretTag_unrecognized (b : ByteSlice) (idx tag : Nat) (p : AxsensorPayload)
    (h : recognized tag = false) : interpretTag b idx tag p = Run.ret p := by
  simp only [recognized, Bool.or_eq_false_iff, decide_eq_false_iff_not] at h
  obtain ⟨⟨⟨⟨h1, h2⟩, h3⟩, h4⟩, h5⟩ := h
  unfold interpretTag
  rw [if_neg h1, if_neg h2, if_neg h3, if_neg h4, if_neg h5]
  rfl

/-- When no tag that the scan visits from `idx` on has a `case`, the loop
returns the record unchanged. -/
theorem decodeLoop_unrecognized (b : ByteSlice) (blen : Nat) (hb : blen ≤ b.len) :
    ∀ (fuel idx : Nat) (p : AxsensorPayload), blen - idx ≤ fuel →
      (∀ i ∈ scanCursors fuel b.data blen idx, recognized (b.data[i]?.getD 0) = false) →
      decodeLoop fuel b blen idx p = Run.ret p := by
  intro fuel
  induction fuel with
  | zero =>
    intro idx p hf _
    unfold decodeLoop
    rw [if_neg (by omega)]
  | succ fuel ih =>
    intro idx p hf hall
    rw [decodeLoop_succ]
    by_cases hidx : idx < blen
    · rw [if_pos hidx, loopBody_eq b idx _ p (index_eq b idx (by omega))]
      unfold scanCursors at hall
      rw [if_pos hidx] at hall
      rw [interpretTag_unrecognized b idx _ p (hall idx (List.mem_cons_self _ _))]
      simp only [Run.ret_bind]
      have hadv := advance_pos (b.data[idx]?.getD 0)
      exact ih _ _ (by omega) (fun i hi => hall i (List.mem_cons_of_mem _ hi))
    · rw [if_neg hidx]

/-- The scan reads only offsets below `blen + 2`. -/
theorem scanLoop_congr (d1 d2 : List Nat) (blen : Nat)
    (h : ∀ i, i < blen + 2 → d1[i]? = d2[i]?) :
    ∀ (fuel idx : Nat) (p : AxsensorPayload),
      scanLoop fuel d1 blen idx p = scanLoop fuel d2 blen idx p := by
  intro fuel
  induction fuel with
  | zero => intro idx p; rfl
  | succ fuel ih =>
    intro idx p
    unfold scanLoop
    by_cases hidx : idx < blen
    · rw [if_pos hidx, if_pos hidx, h idx (by omega), h (idx + 1) (by omega),
        h (idx + 2) (by omega)]
      exact ih _ _
    · rw [if_neg hidx, if_neg hidx]

theorem scanLoop_zero_blen (fuel : Nat) (data : List Nat) (idx : Nat) (p : AxsensorPayload) :
    scanLoop fuel data 0 idx p = p := by
  cases fuel with
  | zero => rfl
  | succ fuel => unfold scanLoop; rw [if_neg (by omega)]

theorem tdiv10_bounds (raw : Int) (h1 : -32768 ≤ raw) (h2 : raw ≤ 32767) :
    -3276 ≤ Int.tdiv raw 10 ∧ Int.tdiv raw 10 ≤ 3276 := by
  rw [tdiv10_eq]
  split_ifs <;> omega

theorem tdiv10_small (raw : Int) (h1 : -9 ≤ raw) (h2 : raw ≤ 9) : Int.tdiv raw 10 = 0 := by
  rw [tdiv10_eq]
  split_ifs <;> omega

theorem Run.bind_eq_ret {α β : Type} (r : Run α) (f : α → Run β) (y : β)
    (h : (r >>= f) = Run.ret y) : ∃ x, r = Run.ret x ∧ f x = Run.ret y := by
  cases r with
  | ret x => exact ⟨x, rfl, h⟩
  | fault m => cases h
  | exhausted => cases h

theorem Run.bind_ne_exhausted {α β : Type} (r : Run α) (f : α → Run β)
    (hr : r ≠ Run.exhausted) (hf : ∀ x, f x ≠ Run.exhausted) : (r >>= f) ≠ Run.exhausted := by
  cases r with
  | ret x => exact hf x
  | fault m => intro h; cases h
  | exhausted => exact absurd rfl hr

theorem index_ne_exhausted (b : ByteSlice) (i : Nat) : b.index i ≠ Run.exhausted := by
  unfold ByteSlice.index
  cases b.data[i]? <;> intro h <;> cases h

theorem slice_ne_exhausted (b : ByteSlice) (lo hi : Nat) : b.slice lo hi ≠ Run.exhausted := by
  unfold ByteSlice.slice
  split_ifs <;> intro h <;> cases h

theorem Uint16_ne_exhausted (s : List Nat) : Uint16 s ≠ Run.exhausted := by
  unfold Uint16
  split <;> intro h <;> cases h

/-- The interpretation of a tag returns or stops with a fault. -/
theorem interpretTag_ne_exhausted (b : ByteSlice) (idx tag : Nat) (p : AxsensorPayload) :
    interpretTag b idx tag p ≠ Run.exhausted := by
  have hret : ∀ q : AxsensorPayload, (pure q : Run AxsensorPayload) ≠ Run.exhausted := by
    intro q h; cases h
  unfold interpretTag
  split_ifs
  · exact Run.bind_ne_exhausted _ _ (slice_ne_exhausted _ _ _) fun s =>
      Run.bind_ne_exhausted _ _ (Uint16_ne_exhausted s) fun u => hret _
  · exact Run.bind_ne_exhausted _ _ (index_ne_exhausted _ _) fun x1 =>
      Run.bind_ne_exhausted _ _ (index_ne_exhausted _ _) fun x2 => hret _
  · exact Run.bind_ne_exhausted _ _ (slice_ne_exhausted _ _ _) fun s =>
      Run.bind_ne_exhausted _ _ (Uint16_ne_exhausted s) fun u => hret _
  · exact Run.bind_ne_exhausted _ _ (index_ne_exhausted _ _) fun x1 =>
      Run.bind_ne_exhausted _ _ (index_ne_exhausted _ _) fun x2 => hret _
  · exact Run.bind_ne_exhausted _ _ (slice_ne_exhausted _ _ _) fun s =>
      Run.bind_ne_exhausted _ _ (Uint16_ne_exhausted s) fun u => hret _
  · exact hret _

theorem loopBody_ne_exhausted (b : ByteSlice) (idx : Nat) (p : AxsensorPayload) :
    loopBody b idx p ≠ Run.exhausted := by
  unfold loopBody
  exact Run.bind_ne_exhausted _ _ (index_ne_exhausted _ _) fun t =>
    Run.bind_ne_exhausted _ _ (interpretTag_ne_exhausted _ _ _ _) fun q => by
      intro h; cases h

/-- Every run of the loop body moves the cursor forward by 1 to 5. -/
theorem loopBody_cursor (b : ByteSlice) (idx idx' : Nat) (p p' : AxsensorPayload)
    (h : loopBody b idx p = Run.ret (idx', p')) : idx + 1 ≤ idx' ∧ idx' ≤ idx + 5 := by
  unfold loopBody at h
  obtain ⟨t, -, h1⟩ := Run.bind_eq_ret _ _ _ h
  obtain ⟨q, -, h2⟩ := Run.bind_eq_ret _ _ _ h1
  simp only [Run.pure_eq, Run.ret.injEq, Prod.mk.injEq] at h2
  have h3 := advance_pos t
  have h4 := advance_le t
  omega

/-- The traced loop with a budget of `blen - idx` iterations does not run out of
budget, runs at most `blen - idx` iterations and ends with the cursor between
`blen` and `blen + 4` (or where it started, beyond that). -/
theorem decodeLoopTraced_bounds (b : ByteSlice) (blen : Nat) :
    ∀ (fuel idx : Nat) (p : AxsensorPayload), blen - idx ≤ fuel →
      decodeLoopTraced fuel b blen idx p ≠ Run.exhausted
      ∧ ∀ c n q, decodeLoopTraced fuel b blen idx p = Run.ret (c, n, q) →
          n ≤ blen - idx ∧ blen ≤ c ∧ idx ≤ c ∧ c ≤ max idx (blen + 4) := by
  intro fuel
  induction fuel with
  | zero =>
    intro idx p hf
    unfold decodeLoopTraced
    rw [if_neg (by omega)]
    refine ⟨(by intro h; cases h), ?_⟩
    intro c n q h
    simp only [Run.ret.injEq, Prod.mk.injEq] at h
    omega
  | succ fuel ih =>
    intro idx p hf
    unfold decodeLoopTraced
    by_cases hidx : idx < blen
    · rw [if_pos hidx]
      simp only
      cases hb : loopBody b idx p with
      | ret s =>
        obtain ⟨s1, s2⟩ := s
        obtain ⟨hc1, hc2⟩ := loopBody_cursor b idx s1 p s2 hb
        obtain ⟨ih1, ih2⟩ := ih s1 s2 (by omega)
        simp only [Run.ret_bind]
        constructor
        · exact Run.bind_ne_exhausted _ _ ih1 fun r => by intro h; cases h
        · intro c n q h
          obtain ⟨r, hr, h2⟩ := Run.bind_eq_ret _ _ _ h
          obtain ⟨r1, r2, r3⟩ := r
          simp only [Run.pure_eq, Run.ret.injEq, Prod.mk.injEq] at h2
          obtain ⟨k1, k2, k3, k4⟩ := ih2 r1 r2 r3 hr
          omega
      | fault m =>
        refine ⟨(by intro h; cases h), ?_⟩
        intro c n q h; cases h
      | exhausted => exact absurd hb (loopBody_ne_exhausted b idx p)
    · rw [if_neg hidx]
      refine ⟨(by intro h; cases h), ?_⟩
      intro c n q h
      simp only [Run.ret.injEq, Prod.mk.injEq] at h
      omega

/-- The loop of `decode` never runs out of its budget of `len/2` iterations. -/
theorem decodeLoop_ne_exhausted (b : ByteSlice) :
    decodeLoop (b.len / 2) b (b.len / 2) 0 AxsensorPayload.empty ≠ Run.exhausted := by
  rw [decodeLoop_eq_traced]
  exact Run.bind_ne_exhausted _ _
    (decodeLoopTraced_bounds b (b.len / 2) (b.len / 2) 0 _ (by omega)).1
    fun r => by intro h; cases h

/-- The outcome of `decode` is a fault or a record with a nil error. -/
theorem decode_fault_or_ret (b : ByteSlice) :
    (∃ m, decode b = Run.fault m) ∨ ∃ p, decode b = Run.ret (p, none) := by
  have h := decodeLoop_ne_exhausted b
  unfold decode
  simp only
  cases hd : decodeLoop (b.len / 2) b (b.len / 2) 0 AxsensorPayload.empty with
  | ret p => exact Or.inr ⟨p, rfl⟩
  | fault m => exact Or.inl ⟨m, rfl⟩
  | exhausted => exact absurd hd h

/-- On a buffer whose length is not 2 the loop of `decode` returns. -/
theorem decode_returns_ne_two_aux (b : ByteSlice) (h : b.len ≠ 2) :
    ∃ p, decodeLoop (b.len / 2) b (b.len / 2) 0 AxsensorPayload.empty = Run.ret p := by
  by_cases h3 : 3 ≤ b.len
  · exact ⟨_, decodeLoop_eq_scanLoop b h3 (b.len / 2) 0 AxsensorPayload.empty (by omega)⟩
  · have h0 : b.len / 2 = 0 := by omega
    rw [h0]
    unfold decodeLoop
    exact ⟨_, by rw [if_neg (by omega)]⟩

/-- A two-byte buffer is scanned in one iteration at cursor 0. -/
theorem decode_len_two (x y : Nat) (spare : List Nat) :
    decode ⟨[x, y], spare⟩
      = (interpretTag ⟨[x, y], spare⟩ 0 x AxsensorPayload.empty >>= fun p =>
          Run.ret (p, none)) := by
  have h0 : advance x ≠ 0 := by have := advance_pos x; omega
  simp only [decode, ByteSlice.len, List.length_cons, List.length_nil]
  rw [decodeLoop]
  simp only [show 0 < (0 + 1 + 1) / 2 by norm_num, if_true, ByteSlice.index,
    List.getElem?_cons_zero, Run.ret_bind]
  cases h : interpretTag ⟨[x, y], spare⟩ 0 x AxsensorPayload.empty with
  | ret p =>
    simp only [Run.ret_bind]
    rw [decodeLoop]
    simp [h0]
  | fault m => simp
  | exhausted => simp

theorem scanInBounds_len_two (x y : Nat) :
    scanInBounds [x, y] = !recognized x := by
  unfold scanInBounds
  simp only [List.length_cons, List.length_nil]
  rw [show (0 + 1 + 1) / 2 = 0 + 1 by norm_num]
  unfold scanCursors
  rw [if_pos (by omega)]
  unfold scanCursors
  simp only [List.all_cons, List.all_nil, Bool.and_true, List.getElem?_cons_zero,
    Option.getD_some, List.length_cons, List.length_nil]
  unfold bodyReach
  cases recognized x <;> simp

/-- On a two-byte buffer without spare capacity a tag that has a `case` stops
`decode` with a run-time fault. -/
theorem decode_len_two_fault (x y : Nat) (h : recognized x = true) :
    ∃ m, decode ⟨[x, y], []⟩ = Run.fault m := by
  rw [decode_len_two]
  simp only [recognized, Bool.or_eq_true, decide_eq_true_eq] at h
  rcases h with (((h | h) | h) | h) | h <;> subst h <;>
    simp [interpretTag, ByteSlice.slice, ByteSlice.cap, ByteSlice.index]

theorem interpretTag_levelInv (b : ByteSlice) (idx tag : Nat) (p p' : AxsensorPayload)
    (h : interpretTag b idx tag p = Run.ret p') (hp : levelInv p) : levelInv p' := by
  unfold levelInv at hp ⊢
  unfold interpretTag at h
  split_ifs at h
  · obtain ⟨s, -, h1⟩ := Run.bind_eq_ret _ _ _ h
    obtain ⟨u, -, h2⟩ := Run.bind_eq_ret _ _ _ h1
    simp only [Run.pure_eq, Run.ret.injEq] at h2
    rw [← h2]; rfl
  · obtain ⟨s, -, h1⟩ := Run.bind_eq_ret _ _ _ h
    obtain ⟨u, -, h2⟩ := Run.bind_eq_ret _ _ _ h1
    simp only [Run.pure_eq, Run.ret.injEq] at h2
    rw [← h2]; exact hp
  · obtain ⟨s, -, h1⟩ := Run.bind_eq_ret _ _ _ h
    obtain ⟨u, -, h2⟩ := Run.bind_eq_ret _ _ _ h1
    simp only [Run.pure_eq, Run.ret.injEq] at h2
    rw [← h2]; exact hp
  · obtain ⟨s, -, h1⟩ := Run.bind_eq_ret _ _ _ h
    obtain ⟨u, -, h2⟩ := Run.bind_eq_ret _ _ _ h1
    simp only [Run.pure_eq, Run.ret.injEq] at h2
    rw [← h2]; exact hp
  · obtain ⟨s, -, h1⟩ := Run.bind_eq_ret _ _ _ h
    obtain ⟨u, -, h2⟩ := Run.bind_eq_ret _ _ _ h1
    simp only [Run.pure_eq, Run.ret.injEq] at h2
    rw [← h2]; exact hp
  · simp only [Run.pure_eq, Run.ret.injEq] at h
    rw [← h]; exact hp

/-- The loop of `decode` keeps the level present exactly when the percentage is. -/
theorem decodeLoop_levelInv (b : ByteSlice) (blen : Nat) :
    ∀ (fuel idx : Nat) (p p' : AxsensorPayload),
      decodeLoop fuel b blen idx p = Run.ret p' → levelInv p → levelInv p' := by
  intro fuel
  induction fuel with
  | zero =>
    intro idx p p' h hp
    unfold decodeLoop at h
    split_ifs at h
    cases h
    exact hp
  | succ fuel ih =>
    intro idx p p' h hp
    rw [decodeLoop_succ] at h
    split_ifs at h
    · obtain ⟨s, hs, h1⟩ := Run.bind_eq_ret _ _ _ h
      unfold loopBody at hs
      obtain ⟨t, -, h2⟩ := Run.bind_eq_ret _ _ _ hs
      obtain ⟨q, hq, h3⟩ := Run.bind_eq_ret _ _ _ h2
      simp only [Run.pure_eq, Run.ret.injEq] at h3
      have hq' := interpretTag_levelInv b idx t p q hq hp
      rw [← h3] at h1
      exact ih _ _ _ h1 hq'
    · cases h
      exact hp

theorem convert_level_present (deviceID : String) (p : AxsensorPayload) (ts : Time)
    (hp : levelInv p) :
    ∀ o ∈ convertToLwm2mObjects deviceID p ts, ∀ d v t l,
      o = Lwm2mObject.FillingLevel d v t l → l.isSome = true := by
  obtain ⟨fp, fl, pr, te, rh, vb⟩ := p
  unfold levelInv at hp
  simp only at hp
  intro o ho d v t l hl
  subst hl
  cases fp <;> cases pr <;> cases te <;> cases rh <;> cases vb <;>
    simp [convertToLwm2mObjects] at ho <;>
    (obtain ⟨-, -, -, rfl⟩ := ho; simpa using hp)

/-! ## The claims on the scan -/

/-- C11: on port 2, a payload in which no byte that the scan visits as a tag is
one of 0x80, 0xA1, 0xA2, 0xA3, 0xA4 makes `Decoder` return the empty (non-nil)
object list and a nil error; the unrecognized tags are skipped and set no field. -/
theorem Decoder_unrecognized_tags (deviceID : String) (e : SensorEvent) (hport : e.FPort = 2)
    (h : ∀ t ∈ visitedTags e.Data.data, recognized t = false) :
    decode e.Data = Run.ret (AxsensorPayload.empty, none)
    ∧ Decoder deviceID e = Run.ret (some [], none) := by
  have hd : decode e.Data = Run.ret (AxsensorPayload.empty, none) := by
    unfold decode
    simp only
    rw [decodeLoop_unrecognized e.Data (e.Data.len / 2) (Nat.div_le_self _ _) _ 0 _ (by omega)]
    · rfl
    · intro i hi
      apply h
      unfold visitedTags
      exact List.mem_map.mpr ⟨i, hi, rfl⟩
  refine ⟨hd, ?_⟩
  unfold Decoder
  rw [if_neg (by rw [hport]; decide), hd]
  rfl

/-- Witness for C11: the 16-byte payload `00 41 07 81 A2 EB C5 ..` visits the
unknown tags 00, 41, 81 and C5 of the four length classes; the bytes A2 and EB
lie inside the chunk of 81 and A4 lies in the second half: they are not visited. -/
theorem Decoder_unrecognized_tags_witness :
    ((2 : Int) = 2 ∧
      visitedTags [0x00, 0x41, 0x07, 0x81, 0xA2, 0xEB, 0xC5, 0, 0, 0, 0, 0xA4, 1, 2, 3, 4]
        = [0x00, 0x41, 0x81, 0xC5]) ∧
    Decoder "dev-1"
        ⟨2, ⟨[0x00, 0x41, 0x07, 0x81, 0xA2, 0xEB, 0xC5, 0, 0, 0, 0, 0xA4, 1, 2, 3, 4], []⟩,
          1700000000⟩
      = Run.ret (some [], none) :=
  ⟨⟨rfl, by decide⟩,
    (Decoder_unrecognized_tags "dev-1"
      ⟨2, ⟨[0x00, 0x41, 0x07, 0x81, 0xA2, 0xEB, 0xC5, 0, 0, 0, 0, 0xA4, 1, 2, 3, 4], []⟩,
        1700000000⟩ rfl (by decide)).2⟩

/-- C12: for the tag `t` read at the cursor `idx`, one step of the loop of
`decode` moves the cursor to `idx + advance t`, where `advance t` is 1 for
`t < 0x40`, 2 for `0x40 ≤ t < 0x80`, 3 for `0x80 ≤ t < 0xC0` and 5 for
`t ≥ 0xC0`: whatever the record, the other bytes and the interpretation of the
tag, the loop body returns no other cursor and the loop continues there. -/
theorem loop_step_advance (b : ByteSlice) (blen idx fuel t : Nat) (p : AxsensorPayload)
    (hidx : idx < blen) (ht : b.index idx = Run.ret t) :
    (∀ idx' p', loopBody b idx p = Run.ret (idx', p') → idx' = idx + advance t)
    ∧ decodeLoop (fuel + 1) b blen idx p
        = (interpretTag b idx t p >>= fun p' => decodeLoop fuel b blen (idx + advance t) p')
    ∧ (t < 0x40 → advance t = 1) ∧ (0x40 ≤ t → t < 0x80 → advance t = 2)
    ∧ (0x80 ≤ t → t < 0xC0 → advance t = 3) ∧ (0xC0 ≤ t → advance t = 5) := by
  refine ⟨?_, ?_, advance_table t⟩
  · intro idx' p' h
    rw [loopBody_eq b idx t p ht] at h
    cases hi : interpretTag b idx t p with
    | ret q =>
      rw [hi] at h
      simp only [Run.ret_bind, Run.ret.injEq, Prod.mk.injEq] at h
      exact h.1.symm
    | fault m => rw [hi] at h; cases h
    | exhausted => rw [hi] at h; cases h
  · rw [decodeLoop_succ, if_pos hidx, loopBody_eq b idx t p ht]
    cases interpretTag b idx t p <;> rfl

/-- Witness for C12: in `C5 00 00 00 00 A2 EB 00 00 00 00 00` the unknown tag C5
at cursor 0 moves the cursor to 5. -/
theorem loop_step_advance_witness :
    ((0 < 6 ∧ ByteSlice.index ⟨[0xC5, 0, 0, 0, 0, 0xA2, 0xEB, 0, 0, 0, 0, 0], []⟩ 0
        = Run.ret 0xC5) ∧ advance 0xC5 = 5) ∧
    loopBody ⟨[0xC5, 0, 0, 0, 0, 0xA2, 0xEB, 0, 0, 0, 0, 0], []⟩ 0 AxsensorPayload.empty
      = Run.ret (5, AxsensorPayload.empty) ∧
    ∀ idx' p', loopBody ⟨[0xC5, 0, 0, 0, 0, 0xA2, 0xEB, 0, 0, 0, 0, 0], []⟩ 0
      AxsensorPayload.empty = Run.ret (idx', p') → idx' = 0 + advance 0xC5 :=
  ⟨⟨⟨by decide, by decide⟩, by decide⟩, by decide,
    (loop_step_advance ⟨[0xC5, 0, 0, 0, 0, 0xA2, 0xEB, 0, 0, 0, 0, 0], []⟩ 6 0 5 0xC5
      AxsensorPayload.empty (by decide) (by decide)).1⟩

/-- C13: `decode` looks only at offsets below `floor(len/2) + 2` (tags below
`floor(len/2)`, their two value bytes behind): two buffers of equal length that
agree on these offsets decode alike (for 2-byte buffers, whose bytes then all
agree, with the same backing array), and a buffer of length 0 or 1 decodes to
the empty record. -/
theorem decode_first_half (b1 b2 : ByteSlice) (hlen : b1.len = b2.len)
    (hagree : ∀ i, i < b1.len / 2 + 2 → b1.data[i]? = b2.data[i]?)
    (hcap : b1.len = 2 → b1.spare = b2.spare) :
    decode b1 = decode b2
    ∧ (b1.len ≠ 2 → ∃ p, decode b1 = Run.ret (p, none) ∧ decode b2 = Run.ret (p, none))
    ∧ (b1.len ≤ 1 → decode b1 = Run.ret (AxsensorPayload.empty, none)) := by
  have hne : b1.len ≠ 2 → ∃ p, decode b1 = Run.ret (p, none) ∧ decode b2 = Run.ret (p, none) := by
    intro h2
    refine ⟨_, decode_eq_scanLoop b1 h2, ?_⟩
    rw [decode_eq_scanLoop b2 (by rw [← hlen]; exact h2), ← hlen,
      scanLoop_congr b1.data b2.data (b1.len / 2) hagree]
  refine ⟨?_, hne, ?_⟩
  · by_cases h2 : b1.len = 2
    · have hd : b1.data = b2.data := by
        apply List.ext_getElem?
        intro i
        by_cases hi : i < 2
        · exact hagree i (by omega)
        · have h1 : b1.data.length ≤ i := by unfold ByteSlice.len at h2; omega
          have h2' : b2.data.length ≤ i := by
            unfold ByteSlice.len at h2 hlen; omega
          rw [List.getElem?_eq_none h1, List.getElem?_eq_none h2']
      have hs := hcap h2
      cases b1; cases b2
      simp only at hd hs
      rw [hd, hs]
    · obtain ⟨p, hp1, hp2⟩ := hne h2
      rw [hp1, hp2]
  · intro h1
    rw [decode_eq_scanLoop b1 (by omega)]
    have h0 : b1.len / 2 = 0 := by omega
    rw [h0, scanLoop_zero_blen]

/-- Witness for C13: `A2 EB 00 A4 64 00` and `A2 EB 00 A4 64 07` differ only at
offset 5; both yield the temperature 23.5 and no battery voltage. -/
theorem decode_first_half_witness :
    (ByteSlice.len ⟨[0xA2, 0xEB, 0x00, 0xA4, 0x64, 0x00], []⟩
        = ByteSlice.len ⟨[0xA2, 0xEB, 0x00, 0xA4, 0x64, 0x07], []⟩
      ∧ ∀ i, i < 6 / 2 + 2 →
        [0xA2, 0xEB, 0x00, 0xA4, 0x64, 0x00][i]? = [0xA2, 0xEB, 0x00, 0xA4, 0x64, 0x07][i]?) ∧
    decode ⟨[0xA2, 0xEB, 0x00, 0xA4, 0x64, 0x00], []⟩
      = Run.ret ({ AxsensorPayload.empty with Temperature := some (47 / 2) }, none) ∧
    decode ⟨[0xA2, 0xEB, 0x00, 0xA4, 0x64, 0x00], []⟩
      = decode ⟨[0xA2, 0xEB, 0x00, 0xA4, 0x64, 0x07], []⟩ :=
  ⟨⟨rfl, by decide⟩, by decide!,
    (decode_first_half ⟨[0xA2, 0xEB, 0x00, 0xA4, 0x64, 0x00], []⟩
      ⟨[0xA2, 0xEB, 0x00, 0xA4, 0x64, 0x07], []⟩ rfl (by decide) (by decide)).1⟩

/-- C14: for every recognized tag `t` and all bytes, decoding the 8-byte frame
`t a b t c d p q` gives the same record as decoding the 3-byte frame `t c d`:
the later chunk overwrites the earlier one and no error is raised. -/
theorem decode_duplicate_tag (t a b c d p q : Nat) (s1 s2 : List Nat)
    (ht : t = 0x80 ∨ t = 0xA1 ∨ t = 0xA2 ∨ t = 0xA3 ∨ t = 0xA4) :
    decode ⟨[t, a, b, t, c, d, p, q], s1⟩ = decode ⟨[t, c, d], s2⟩
    ∧ ∃ r, decode ⟨[t, c, d], s2⟩ = Run.ret (r, none) := by
  have h8 : ByteSlice.len ⟨[t, a, b, t, c, d, p, q], s1⟩ ≠ 2 := by simp [ByteSlice.len]
  have h3 : ByteSlice.len ⟨[t, c, d], s2⟩ ≠ 2 := by simp [ByteSlice.len]
  refine ⟨?_, _, decode_eq_scanLoop _ h3⟩
  rw [decode_eq_scanLoop _ h8, decode_eq_scanLoop _ h3]
  rcases ht with h | h | h | h | h <;> subst h <;>
    simp [ByteSlice.len, scanLoop, applyTag, advance]

/-- Witness for C14: `A2 EB 00 A2 00 00 00 00` gives the temperature 0, not 23.5. -/
theorem decode_duplicate_tag_witness :
    (0xA2 = 0x80 ∨ 0xA2 = 0xA1 ∨ 0xA2 = 0xA2 ∨ 0xA2 = 0xA3 ∨ 0xA2 = 0xA4) ∧
    decode ⟨[0xA2, 0x00, 0x00], []⟩
      = Run.ret ({ AxsensorPayload.empty with Temperature := some 0 }, none) ∧
    decode ⟨[0xA2, 0xEB, 0x00, 0xA2, 0x00, 0x00, 0x00, 0x00], []⟩
      = decode ⟨[0xA2, 0x00, 0x00], []⟩ :=
  ⟨by decide, by decide!,
    (decode_duplicate_tag 0xA2 0xEB 0x00 0x00 0x00 0x00 0x00 [] [] (by decide)).1⟩

/-- C15: in `decode` the height of tag 0x80 is computed in `int16` before the
conversion to `float64`: for every raw value the quotient `raw quot 10`
(truncated toward zero) and the height `1400 - raw quot 10` stay inside `int16`
(the height lies in [-1876, 4676]), so nothing wraps and the height is a whole
number; two raw values with the same truncated quotient decode alike, and every
raw from -9 to 9 gives fillingPercentage 100 and fillinglevel 140. -/
theorem decode_height_int16 (lo hi : Nat) (hlo : lo < 256) (hhi : hi < 256) (spare : List Nat) :
    levelOf (int16 (lo + 256 * hi)) = 1400 - Int.tdiv (int16 (lo + 256 * hi)) 10
    ∧ (-3276 ≤ Int.tdiv (int16 (lo + 256 * hi)) 10 ∧ Int.tdiv (int16 (lo + 256 * hi)) 10 ≤ 3276)
    ∧ (-1876 ≤ levelOf (int16 (lo + 256 * hi)) ∧ levelOf (int16 (lo + 256 * hi)) ≤ 4676)
    ∧ decode ⟨[0x80, lo, hi], spare⟩
        = Run.ret ({ AxsensorPayload.empty with
            FillingPercentage := some (f64Round (specRound5
              (((1400 - Int.tdiv (int16 (lo + 256 * hi)) 10 : ℤ) : ℚ) * 100 / 1400)))
            FillingLevel := some
              (Int.tdiv (1400 - Int.tdiv (int16 (lo + 256 * hi)) 10 + 5) 10) }, none)
    ∧ (∀ lo' hi' : Nat, ∀ spare' : List Nat, lo' < 256 → hi' < 256 →
        Int.tdiv (int16 (lo' + 256 * hi')) 10 = Int.tdiv (int16 (lo + 256 * hi)) 10 →
        decode ⟨[0x80, lo', hi'], spare'⟩ = decode ⟨[0x80, lo, hi], spare⟩)
    ∧ (-9 ≤ int16 (lo + 256 * hi) → int16 (lo + 256 * hi) ≤ 9 →
        decode ⟨[0x80, lo, hi], spare⟩
          = Run.ret ({ AxsensorPayload.empty with
              FillingPercentage := some 100, FillingLevel := some 140 }, none)) := by
  obtain ⟨hb1, hb2⟩ := int16_bounds (lo + 256 * hi)
  obtain ⟨hl, hl1, hl2⟩ := levelOf_eq _ hb1 hb2
  have hdec : decode ⟨[0x80, lo, hi], spare⟩
      = Run.ret ({ AxsensorPayload.empty with
          FillingPercentage := some (f64Round (specRound5
            (((1400 - Int.tdiv (int16 (lo + 256 * hi)) 10 : ℤ) : ℚ) * 100 / 1400)))
          FillingLevel := some
            (Int.tdiv (1400 - Int.tdiv (int16 (lo + 256 * hi)) 10 + 5) 10) }, none) := by
    rw [decode_frame_80 lo hi hlo hhi spare, hl]
  refine ⟨hl, tdiv10_bounds _ hb1 hb2, ⟨hl1, hl2⟩, hdec, ?_, ?_⟩
  · intro lo' hi' spare' hlo' hhi' hq
    obtain ⟨hb1', hb2'⟩ := int16_bounds (lo' + 256 * hi')
    rw [hdec, decode_frame_80 lo' hi' hlo' hhi' spare', (levelOf_eq _ hb1' hb2').1, hq]
  · intro h1 h2
    rw [hdec, tdiv10_small _ h1 h2]
    have e1 : f64Round (specRound5 (((1400 - 0 : ℤ) : ℚ) * 100 / 1400)) = 100 := by decide!
    have e2 : Int.tdiv ((1400 : ℤ) - 0 + 5) 10 = 140 := by decide
    rw [e1, e2]

/-- Witness for C15: the frames `80 F7 FF` (raw -9) and `80 09 00` (raw 9) both
give fillingPercentage 100 and fillinglevel 140. -/
theorem decode_height_int16_witness :
    ((0xF7 < 256 ∧ 0xFF < 256) ∧ int16 (0xF7 + 256 * 0xFF) = -9 ∧ int16 (0x09 + 256 * 0x00) = 9) ∧
    decode ⟨[0x80, 0xF7, 0xFF], []⟩
      = Run.ret ({ AxsensorPayload.empty with
          FillingPercentage := some 100, FillingLevel := some 140 }, none) ∧
    decode ⟨[0x80, 0x09, 0x00], []⟩ = decode ⟨[0x80, 0xF7, 0xFF], []⟩ :=
  ⟨⟨by decide, by decide, by decide⟩,
    (decode_height_int16 0xF7 0xFF (by decide) (by decide) []).2.2.2.2.2 (by decide) (by decide),
    (decode_height_int16 0xF7 0xFF (by decide) (by decide) []).2.2.2.2.1 0x09 0x00 []
      (by decide) (by decide) (by decide)⟩

/-- C16: every index and slice expression of `decode` is in bounds on every
buffer whose length is not 2 (for length 0 or 1 no cursor is visited, for length
3 or more every cursor `idx < floor(len/2)` has `idx + 3 ≤ len`), and the scan
reaches past the end of the buffer exactly when the buffer has length 2 and its
first byte is one of 0x80, 0xA1, 0xA2, 0xA3, 0xA4.  A fault of `decode` occurs only
then, and always then when the buffer has no spare capacity. -/
theorem decode_in_bounds (b : ByteSlice) :
    (∀ len idx : Nat, 3 ≤ len → idx < len / 2 → idx + 3 ≤ len)
    ∧ (b.len ≤ 1 → scanCursors (b.len / 2) b.data (b.len / 2) 0 = [])
    ∧ (b.len ≠ 2 → scanInBounds b.data = true ∧ ∃ p, decode b = Run.ret (p, none))
    ∧ (scanInBounds b.data = false ↔ b.len = 2 ∧ recognized (b.data[0]?.getD 0) = true)
    ∧ ((∃ m, decode b = Run.fault m) → scanInBounds b.data = false)
    ∧ (scanInBounds b.data = false → b.spare = [] → ∃ m, decode b = Run.fault m) := by
  obtain ⟨data, spare⟩ := b
  have hiff : scanInBounds data = false ↔ data.length = 2 ∧ recognized (data[0]?.getD 0) = true := by
    by_cases h2 : data.length = 2
    · obtain ⟨x, y, hxy⟩ := List.length_eq_two.mp h2
      subst hxy
      rw [scanInBounds_len_two]
      simp only [List.getElem?_cons_zero, Option.getD_some]
      cases hr : recognized x <;> simp
    · rw [scanInBounds_of_len_ne_two data h2]
      simp [h2]
  refine ⟨by intro len idx h1 h2; omega, ?_, ?_, hiff, ?_, ?_⟩
  · intro h1
    have h0 : ByteSlice.len ⟨data, spare⟩ / 2 = 0 := by omega
    rw [h0]
    rfl
  · intro h2
    exact ⟨scanInBounds_of_len_ne_two data h2, _, decode_eq_scanLoop _ h2⟩
  · rintro ⟨m, hm⟩
    by_contra hb
    rw [Bool.not_eq_false] at hb
    by_cases h2 : data.length = 2
    · obtain ⟨x, y, hxy⟩ := List.length_eq_two.mp h2
      subst hxy
      rw [scanInBounds_len_two] at hb
      have hx : recognized x = false := by cases hr : recognized x <;> simp [hr] at hb ⊢
      rw [decode_len_two, interpretTag_unrecognized _ _ _ _ hx] at hm
      cases hm
    · rw [decode_eq_scanLoop ⟨data, spare⟩ h2] at hm
      cases hm
  · intro hb hs
    obtain ⟨h2, hr⟩ := hiff.mp hb
    obtain ⟨x, y, hxy⟩ := List.length_eq_two.mp h2
    subst hxy
    simp only at hs
    subst hs
    exact decode_len_two_fault x y (by simpa using hr)

/-- Witness for C16: the 2-byte buffer `80 00` without spare capacity reaches past
its end and stops with a fault. -/
theorem decode_in_bounds_witness :
    (scanInBounds [0x80, 0x00] = false ∧ ([] : List Nat) = []) ∧
    ∃ m, decode ⟨[0x80, 0x00], []⟩ = Run.fault m :=
  ⟨⟨by decide, rfl⟩, (decode_in_bounds ⟨[0x80, 0x00], []⟩).2.2.2.2.2 (by decide) rfl⟩

/-- C17: `decode` never returns a non-nil error: its outcome is a run-time fault
or a record with a nil error.  So `Decoder` returns an error value exactly when
FPort is not 2, and on port 2 it returns, unless `decode` stops with a fault, a
non-nil object list and a nil error. -/
theorem decode_error_nil :
    (∀ b p err, decode b = Run.ret (p, err) → err = none)
    ∧ (∀ b, (∃ m, decode b = Run.fault m) ∨ ∃ p, decode b = Run.ret (p, none))
    ∧ (∀ b, b.len ≠ 2 → ∃ p, decode b = Run.ret (p, none))
    ∧ (∀ deviceID e,
        (∃ objs msg, Decoder deviceID e = Run.ret (objs, some msg)) ↔ e.FPort ≠ 2)
    ∧ (∀ deviceID e, e.FPort = 2 →
        (∃ m, decode e.Data = Run.fault m ∧ Decoder deviceID e = Run.fault m)
        ∨ ∃ objs, Decoder deviceID e = Run.ret (some objs, none)) := by
  have hport2 : ∀ deviceID e, e.FPort = 2 →
      (∃ m, decode e.Data = Run.fault m ∧ Decoder deviceID e = Run.fault m)
      ∨ ∃ objs, Decoder deviceID e = Run.ret (some objs, none) := by
    intro deviceID e hp
    unfold Decoder
    rw [if_neg (by rw [hp]; decide)]
    rcases decode_fault_or_ret e.Data with ⟨m, hm⟩ | ⟨p, hp'⟩
    · exact Or.inl ⟨m, hm, by rw [hm]⟩
    · exact Or.inr ⟨_, by rw [hp']⟩
  refine ⟨?_, decode_fault_or_ret, fun b h => ⟨_, decode_eq_scanLoop b h⟩, ?_, hport2⟩
  · intro b p err h
    rcases decode_fault_or_ret b with ⟨m, hm⟩ | ⟨q, hq⟩
    · rw [hm] at h; cases h
    · rw [hq] at h
      simp only [Run.ret.injEq, Prod.mk.injEq] at h
      exact h.2.symm
  · intro deviceID e
    constructor
    · rintro ⟨objs, msg, h⟩ hp
      rcases hport2 deviceID e hp with ⟨m, -, hm⟩ | ⟨o, ho⟩
      · rw [hm] at h; cases h
      · rw [ho] at h
        simp only [Run.ret.injEq, Prod.mk.injEq] at h
        cases h.2
    · intro hp
      exact ⟨none, "invalid fPort", by unfold Decoder; rw [if_pos hp]⟩

/-- Witness for C17: on port 5 `Decoder` returns an error value; on port 2 with
the payload `A2 EB 00` it returns a non-nil list and a nil error. -/
theorem decode_error_nil_witness :
    ((5 : Int) ≠ 2 ∧ (2 : Int) = 2) ∧
    (∃ objs msg, Decoder "dev-1" ⟨5, ⟨[0xA2, 0xEB, 0x00], []⟩, 1700000000⟩
      = Run.ret (objs, some msg)) ∧
    ((∃ m, decode ⟨[0xA2, 0xEB, 0x00], []⟩ = Run.fault m
        ∧ Decoder "dev-1" ⟨2, ⟨[0xA2, 0xEB, 0x00], []⟩, 1700000000⟩ = Run.fault m)
      ∨ ∃ objs, Decoder "dev-1" ⟨2, ⟨[0xA2, 0xEB, 0x00], []⟩, 1700000000⟩
        = Run.ret (some objs, none)) :=
  ⟨⟨by decide, rfl⟩,
    (decode_error_nil.2.2.2.1 "dev-1" ⟨5, ⟨[0xA2, 0xEB, 0x00], []⟩, 1700000000⟩).mpr (by decide),
    decode_error_nil.2.2.2.2 "dev-1" ⟨2, ⟨[0xA2, 0xEB, 0x00], []⟩, 1700000000⟩ rfl⟩

/-- C18: the scan loop terminates on every buffer: the advance of the cursor is
at least 1 and at most 5 in every iteration, the budget of `floor(len/2)`
iterations is never used up, and a loop that returns has run at most
`floor(len/2)` iterations and ends with the cursor between `floor(len/2)` and
`floor(len/2) + 4`. -/
theorem decodeLoop_terminates (b : ByteSlice) :
    (∀ t, 1 ≤ advance t ∧ advance t ≤ 5)
    ∧ (∀ idx idx' p p', loopBody b idx p = Run.ret (idx', p') → idx + 1 ≤ idx' ∧ idx' ≤ idx + 5)
    ∧ decodeLoop (b.len / 2) b (b.len / 2) 0 AxsensorPayload.empty
        = (decodeLoopTraced (b.len / 2) b (b.len / 2) 0 AxsensorPayload.empty
            >>= fun r => Run.ret r.2.2)
    ∧ decodeLoopTraced (b.len / 2) b (b.len / 2) 0 AxsensorPayload.empty ≠ Run.exhausted
    ∧ decodeLoop (b.len / 2) b (b.len / 2) 0 AxsensorPayload.empty ≠ Run.exhausted
    ∧ (∀ c n q, decodeLoopTraced (b.len / 2) b (b.len / 2) 0 AxsensorPayload.empty
          = Run.ret (c, n, q) → n ≤ b.len / 2 ∧ b.len / 2 ≤ c ∧ c ≤ b.len / 2 + 4)
    ∧ (b.len ≠ 2 → ∃ c n q, decodeLoopTraced (b.len / 2) b (b.len / 2) 0 AxsensorPayload.empty
          = Run.ret (c, n, q)) := by
  obtain ⟨h1, h2⟩ := decodeLoopTraced_bounds b (b.len / 2) (b.len / 2) 0
    AxsensorPayload.empty (by omega)
  refine ⟨fun t => ⟨advance_pos t, advance_le t⟩,
    fun idx idx' p p' h => loopBody_cursor b idx idx' p p' h,
    decodeLoop_eq_traced b _ _ _ _, h1, decodeLoop_ne_exhausted b, ?_, ?_⟩
  · intro c n q h
    obtain ⟨k1, k2, -, k4⟩ := h2 c n q h
    refine ⟨by omega, k2, ?_⟩
    have : max 0 (b.len / 2 + 4) = b.len / 2 + 4 := by omega
    omega
  · intro hne
    obtain ⟨p, hp⟩ := decode_returns_ne_two_aux b hne
    cases ht : decodeLoopTraced (b.len / 2) b (b.len / 2) 0 AxsensorPayload.empty with
    | ret r => exact ⟨r.1, r.2.1, r.2.2, rfl⟩
    | fault m =>
      rw [decodeLoop_eq_traced, ht] at hp
      cases hp
    | exhausted => exact absurd ht h1

/-- Witness for C18: on the 12-byte buffer `C5 00 00 00 00 A2 EB 00 ..` the loop
runs 2 of its 6 possible iterations (cursors 0 and 5) and ends with the cursor 8. -/
theorem decodeLoop_terminates_witness :
    decodeLoopTraced 6 ⟨[0xC5, 0, 0, 0, 0, 0xA2, 0xEB, 0, 0, 0, 0, 0], []⟩ 6 0
        AxsensorPayload.empty
      = Run.ret (8, 2, { AxsensorPayload.empty with Temperature := some (47 / 2) }) ∧
    (2 ≤ ByteSlice.len ⟨[0xC5, 0, 0, 0, 0, 0xA2, 0xEB, 0, 0, 0, 0, 0], []⟩ / 2
      ∧ ByteSlice.len ⟨[0xC5, 0, 0, 0, 0, 0xA2, 0xEB, 0, 0, 0, 0, 0], []⟩ / 2 ≤ 8
      ∧ 8 ≤ ByteSlice.len ⟨[0xC5, 0, 0, 0, 0, 0xA2, 0xEB, 0, 0, 0, 0, 0], []⟩ / 2 + 4) :=
  ⟨by decide!,
    (decodeLoop_terminates ⟨[0xC5, 0, 0, 0, 0, 0xA2, 0xEB, 0, 0, 0, 0, 0], []⟩).2.2.2.2.2.1
      8 2 { AxsensorPayload.empty with Temperature := some (47 / 2) } (by decide!)⟩

/-- C19: in every record that `decode` returns, FillingLevel is present exactly
when FillingPercentage is; hence every FillingLevel object that `Decoder` emits
carries a present ActualFillingLevel. -/
theorem level_iff_percentage :
    (∀ b p err, decode b = Run.ret (p, err) →
      (p.FillingLevel.isSome = true ↔ p.FillingPercentage.isSome = true))
    ∧ (∀ deviceID e objs err, Decoder deviceID e = Run.ret (some objs, err) →
        ∀ o ∈ objs, ∀ d v t l, o = Lwm2mObject.FillingLevel d v t l → l.isSome = true) := by
  have hdec : ∀ b p err, decode b = Run.ret (p, err) → levelInv p := by
    intro b p err h
    unfold decode at h
    obtain ⟨q, hq, h1⟩ := Run.bind_eq_ret _ _ _ h
    simp only [Run.pure_eq, Run.ret.injEq, Prod.mk.injEq] at h1
    rw [← h1.1]
    exact decodeLoop_levelInv b _ _ _ _ _ hq rfl
  constructor
  · intro b p err h
    have := hdec b p err h
    unfold levelInv at this
    rw [this]
  · intro deviceID e objs err h
    unfold Decoder at h
    split_ifs at h
    · cases h
    · cases hd : decode e.Data with
      | ret r =>
        obtain ⟨p, er⟩ := r
        rw [hd] at h
        cases er with
        | none =>
          simp only [Run.ret.injEq, Prod.mk.injEq, Option.some.injEq] at h
          rw [← h.1]
          exact convert_level_present deviceID p e.Timestamp (hdec _ _ _ hd)
        | some m => cases h
      | fault m => rw [hd] at h; cases h
      | exhausted => rw [hd] at h; cases h

/-- Witness for C19: the frame `80 00 00` yields a record with both the percentage
and the level, and the FillingLevel object carries the level. -/
theorem level_iff_percentage_witness :
    decode ⟨[0x80, 0x00, 0x00], []⟩
      = Run.ret ({ AxsensorPayload.empty with
          FillingPercentage := some 100, FillingLevel := some 140 }, none) ∧
    Decoder "dev-1" ⟨2, ⟨[0x80, 0x00, 0x00], []⟩, 1700000000⟩
      = Run.ret (some [Lwm2mObject.FillingLevel "dev-1" 100 1700000000 (some 140)], none) ∧
    (some (140 : Int)).isSome = true :=
  ⟨by decide!, by decide!,
    level_iff_percentage.2 "dev-1" ⟨2, ⟨[0x80, 0x00, 0x00], []⟩, 1700000000⟩
      [Lwm2mObject.FillingLevel "dev-1" 100 1700000000 (some 140)] none (by decide!)
      (Lwm2mObject.FillingLevel "dev-1" 100 1700000000 (some 140)) (List.mem_singleton.mpr rfl)
      "dev-1" 100 1700000000 (some 140) rfl⟩

end Axsensor
